import Mathlib

/-!
# Verification of the `expo-storage-universal` typed storage wrappers

A shallow embedding of the typed value wrappers
(`StringValueStorageWrapper`, `NumberValueStorageWrapper`,
`BooleanValueStorageWrapper`, `DateValueStorageWrapper`,
`JsonValueStorageWrapper`, `Uint8ArrayValueStorageWrapper`) and the JSON
collection wrapper (`JsonValuesStorageWrapper`) over the three-operation
string backend contract (`find` / `save` / `remove`).

Every wrapper binds one backend and one key, and each method performs at
most one backend read followed by pure computation and at most one backend
write.  A method is therefore embedded as a pure function of the backend's
current content at the wrapper's key (`Option String`), returning the
method's outcome (`Except` an error-message string, matching the thrown
`Error` messages of the source) together with the ordered list of backend
operations the method issued.

JavaScript numbers are modelled by `JSNum`: exact rationals plus `NaN` and
the two infinities.  This drops IEEE-754 rounding (rationals stand in for
doubles); theorems whose faithfulness depends on double formatting carry
explicit integrality/magnitude hypotheses.  `Number(string)` coercion is
implemented as `jsToNumber` following the ECMAScript string numeric
grammar (whitespace trimming, empty string to 0, signed `Infinity`,
decimal literals with fraction and exponent, unsigned `0x`/`0o`/`0b`
literals, anything else to `NaN`).
-/

/-- A call against the backend `Storage` contract. -/
inductive StorageOp where
  | find (key : String)
  | save (key : String) (value : String)
  | remove (key : String)
deriving DecidableEq, Repr

/-- One run of a wrapper method: the result (or thrown error message) and the
ordered backend operations the method issued. -/
structure MethodRun (α : Type) where
  result : Except String α
  ops : List StorageOp
deriving Repr

instance {α : Type} [DecidableEq α] : DecidableEq (Except String α) := fun a b =>
  match a, b with
  | .ok x, .ok y => decidable_of_iff (x = y) (by simp)
  | .error x, .error y => decidable_of_iff (x = y) (by simp)
  | .ok _, .error _ => .isFalse (by simp)
  | .error _, .ok _ => .isFalse (by simp)

instance {α : Type} [DecidableEq α] : DecidableEq (MethodRun α) := fun a b =>
  decidable_of_iff (a.result = b.result ∧ a.ops = b.ops) (by
    cases a; cases b; simp)

/-- Message of the `NotFound` error thrown by `retrieve()`:
`No value found for key ${this.key}`. -/
def noValueMsg (key : String) : String :=
  "No value found for key " ++ key

/-- Message thrown by `DateValueStorageWrapper.find` on a `NaN` timestamp:
`Invalid timestamp value stored for key ${this.key}`. -/
def invalidTimestampMsg (key : String) : String :=
  "Invalid timestamp value stored for key " ++ key

/-- Message thrown by `JsonValuesStorageWrapper.updateItem` on no match. -/
def itemNotFoundMsg : String :=
  "Item not found in storage. The item may have been deleted or the comparison function may not match any existing items."

/-- Message wrapping a JSON parse failure in `JsonValueStorageWrapper.find`:
`Failed to parse JSON for key ${this.key}: ...`. -/
def jsonParseFailMsg (key msg : String) : String :=
  "Failed to parse JSON for key " ++ key ++ ": " ++ msg

/-! ## JavaScript numbers -/

/-- A JavaScript number: an exact rational (standing in for a finite double),
`NaN`, or one of the two infinities. -/
inductive JSNum where
  | num (q : ℚ)
  | nan
  | inf
  | negInf
deriving DecidableEq, Repr

/-- JS unary minus on numbers. -/
def JSNum.negate : JSNum → JSNum
  | .num q => .num (-q)
  | .nan => .nan
  | .inf => .negInf
  | .negInf => .inf

/-- JS falsiness of a number: `0` and `NaN` are falsy. -/
def JSNum.falsy : JSNum → Bool
  | .num q => q == 0
  | .nan => true
  | .inf => false
  | .negInf => false

/-- The decimal digit value of a character, if it is `'0'`–`'9'`. -/
def digitVal? (c : Char) : Option Nat :=
  if 48 ≤ c.toNat ∧ c.toNat ≤ 57 then some (c.toNat - 48) else none

/-- Splits off the longest prefix of decimal digits, as digit values. -/
def takeDigits : List Char → List Nat × List Char
  | [] => ([], [])
  | c :: cs =>
    match digitVal? c with
    | some d =>
      let r := takeDigits cs
      (d :: r.1, r.2)
    | none => ([], c :: cs)

/-- Value of a big-endian list of decimal digit values. -/
def digitsToNat (ds : List Nat) : Nat :=
  ds.foldl (fun a d => 10 * a + d) 0

/-- Parses the optional exponent part of a decimal literal; the whole
remaining input must be consumed. -/
def parseExpPart : List Char → Option Int
  | [] => some 0
  | c :: cs =>
    if c = 'e' ∨ c = 'E' then
      match cs with
      | '+' :: cs' =>
        let (ds, rest) := takeDigits cs'
        if ds ≠ [] ∧ rest = [] then some (digitsToNat ds : Int) else none
      | '-' :: cs' =>
        let (ds, rest) := takeDigits cs'
        if ds ≠ [] ∧ rest = [] then some (-(digitsToNat ds : Int)) else none
      | _ =>
        let (ds, rest) := takeDigits cs
        if ds ≠ [] ∧ rest = [] then some (digitsToNat ds : Int) else none
    else none

/-- The exact rational value of the decimal literal with integer digits
`ds`, fraction digits `fs` and exponent `e`, i.e.
`(value ds + value fs / 10 ^ |fs|) * 10 ^ e`, computed with integer
arithmetic (the digits are absorbed into one mantissa, then the remaining
power of ten is applied as a multiplication or as a denominator). -/
def decLitValue (ds fs : List Nat) (e : Int) : ℚ :=
  let m := digitsToNat (ds ++ fs)
  let e' : Int := e - fs.length
  if 0 ≤ e' then ((m * 10 ^ e'.toNat : Nat) : ℚ)
  else mkRat m (10 ^ (-e').toNat)

/-- Parses an unsigned decimal literal (`digits`, `digits.digits?`,
`.digits`, with optional exponent), consuming the whole input. -/
def parseDecimal (cs : List Char) : Option ℚ :=
  let (ds, rest) := takeDigits cs
  match rest with
  | '.' :: rest2 =>
    let (fs, rest3) := takeDigits rest2
    if ds = [] ∧ fs = [] then none
    else (parseExpPart rest3).map fun e => decLitValue ds fs e
  | _ =>
    if ds = [] then none
    else (parseExpPart rest).map fun e => decLitValue ds [] e

/-- The hexadecimal digit value of a character, if any. -/
def hexVal? (c : Char) : Option Nat :=
  if 48 ≤ c.toNat ∧ c.toNat ≤ 57 then some (c.toNat - 48)
  else if 97 ≤ c.toNat ∧ c.toNat ≤ 102 then some (c.toNat - 87)
  else if 65 ≤ c.toNat ∧ c.toNat ≤ 70 then some (c.toNat - 55)
  else none

/-- Parses a whole input as digits of the given base, requiring at least one
digit. -/
def parseRadix (base : Nat) (dv : Char → Option Nat) (cs : List Char) : Option Nat :=
  match cs.mapM dv with
  | some ds => if ds = [] then none else some (ds.foldl (fun a d => base * a + d) 0)
  | none => none

/-- Parses the unsigned non-decimal integer literals `0x…`, `0o…`, `0b…`. -/
def parseNonDecimal : List Char → Option JSNum
  | c0 :: c :: rest =>
    if c0 = '0' then
      if c = 'x' ∨ c = 'X' then (parseRadix 16 hexVal? rest).map fun n => .num n
      else if c = 'o' ∨ c = 'O' then
        (parseRadix 8 (fun c => if '0' ≤ c ∧ c ≤ '7' then digitVal? c else none) rest).map
          fun n => .num n
      else if c = 'b' ∨ c = 'B' then
        (parseRadix 2 (fun c => if c = '0' ∨ c = '1' then digitVal? c else none) rest).map
          fun n => .num n
      else none
    else none
  | _ => none

/-- An unsigned numeric literal: `Infinity` or a decimal literal. -/
def parseUnsignedNumeric (cs : List Char) : Option JSNum :=
  if cs = "Infinity".toList then some .inf
  else (parseDecimal cs).map .num

/-- JS string whitespace (the ASCII fragment of the `StrWhiteSpaceChar` set). -/
def isStrWS (c : Char) : Bool :=
  c = ' ' ∨ c = '\t' ∨ c = '\n' ∨ c = '\r' ∨ c = '\x0b' ∨ c = '\x0c'

/-- Trims JS whitespace from both ends. -/
def trimWS (cs : List Char) : List Char :=
  ((cs.dropWhile isStrWS).reverse.dropWhile isStrWS).reverse

/-- The ECMAScript `ToNumber` coercion on strings (`Number(storedValue)`):
trim whitespace; empty to `0`; optionally signed `Infinity` or decimal
literal; unsigned `0x`/`0o`/`0b` literal; anything else to `NaN`. -/
def jsToNumberAux : List Char → JSNum
  | [] => .num 0
  | c :: rest =>
    if c = '+' then (parseUnsignedNumeric rest).getD .nan
    else if c = '-' then ((parseUnsignedNumeric rest).map JSNum.negate).getD .nan
    else
      ((parseNonDecimal (c :: rest)).orElse fun _ =>
        parseUnsignedNumeric (c :: rest)).getD .nan

def jsToNumber (s : String) : JSNum :=
  jsToNumberAux (trimWS s.toList)

/-! ## Printing numbers (`Number.prototype.toString`) -/

/-- The character of a decimal digit value (code point 48 is `'0'`). -/
def digitChar (d : Nat) : Char := Char.ofNat (48 + d)

/-- Little-endian decimal digits of `n` (with fuel for structural
termination; `fuel ≥ n` suffices). -/
def natDigitsRev (fuel n : Nat) : List Nat :=
  match fuel with
  | 0 => []
  | fuel + 1 => if n = 0 then [] else n % 10 :: natDigitsRev fuel (n / 10)

/-- Decimal digit characters of a natural number, most significant first. -/
def natDec (n : Nat) : List Char :=
  if n = 0 then ['0'] else ((natDigitsRev n n).reverse).map digitChar

/-- Decimal string of an integer (the JS `toString()` of an integral
number). -/
def intDec (n : Int) : String :=
  match n with
  | .ofNat m => (natDec m).asString
  | .negSucc m => ('-' :: natDec (m + 1)).asString

/-- Largest `k` with `p ^ k ∣ n` (0 for degenerate inputs). -/
def maxPow (p n : Nat) : Nat :=
  if h : 2 ≤ p ∧ 1 ≤ n ∧ n % p = 0 then
    have : n / p < n := Nat.div_lt_self (by omega) (by omega)
    maxPow p (n / p) + 1
  else 0
termination_by n

/-- Exact decimal expansion of a non-integral rational whose reduced
denominator divides a power of ten (which is every value reachable from
parsing a decimal literal).  Mirrors the shortest round-trip decimal that
JS `toString()` prints for such values.  For denominators with other prime
factors — unreachable from JS doubles — falls back to a fraction spelling. -/
def ratDotRepr (q : ℚ) : String :=
  let d := q.den
  let k := max (maxPow 2 d) (maxPow 5 d)
  if d = 2 ^ maxPow 2 d * 5 ^ maxPow 5 d then
    let scaled := q.num.natAbs * 10 ^ k / d
    let digits := natDec scaled
    let digits := List.replicate (k + 1 - digits.length) '0' ++ digits
    let s := (digits.take (digits.length - k)) ++ '.' :: (digits.drop (digits.length - k))
    ((if q.num < 0 then '-' :: s else s)).asString
  else intDec q.num ++ "/" ++ (natDec d).asString

/-- JS `Number.prototype.toString` on the modelled numbers. -/
def jsNumToString : JSNum → String
  | .nan => "NaN"
  | .inf => "Infinity"
  | .negInf => "-Infinity"
  | .num q => if q.den = 1 then intDec q.num else ratDotRepr q

/-! ## Dates -/

/-- A JS `Date`: its time value (`NaN` for an Invalid Date). -/
structure JSDate where
  time : JSNum
deriving DecidableEq, Repr

/-- Truncation of a rational toward zero. -/
def ratTrunc (q : ℚ) : Int := q.num.tdiv q.den

/-- The ECMAScript `TimeClip` applied by the `Date` constructor: non-finite
or out-of-range time values become `NaN`; in-range values are truncated to
integral milliseconds. -/
def timeClip : JSNum → JSNum
  | .num q => if |q| ≤ (8640000000000000 : ℚ) then .num (ratTrunc q : ℚ) else .nan
  | _ => .nan

/-- `new Date(t)` for a numeric argument. -/
def mkDate (t : JSNum) : JSDate := ⟨timeClip t⟩

/-! ## Base64 (the `base64-js` codec used by `Uint8ArrayValueStorageWrapper`) -/

/-- The base64 alphabet character for a sextet value
(`ABCDEFGHIJKLMNOPQRSTUVWXYZabcdefghijklmnopqrstuvwxyz0123456789+/`). -/
def b64Char (n : Nat) : Char :=
  if n < 26 then Char.ofNat ('A'.toNat + n)
  else if n < 52 then Char.ofNat ('a'.toNat + (n - 26))
  else if n < 62 then Char.ofNat ('0'.toNat + (n - 52))
  else if n = 62 then '+'
  else '/'

/-- The reverse lookup of the base64 alphabet. -/
def b64Val? (c : Char) : Option Nat :=
  if 65 ≤ c.toNat ∧ c.toNat ≤ 90 then some (c.toNat - 65)
  else if 97 ≤ c.toNat ∧ c.toNat ≤ 122 then some (c.toNat - 71)
  else if 48 ≤ c.toNat ∧ c.toNat ≤ 57 then some (c.toNat + 4)
  else if c = '+' then some 62
  else if c = '/' then some 63
  else none

/-- `base64-js` `fromByteArray`: 3-byte chunks become 4 alphabet characters;
a 1- or 2-byte tail becomes a padded final group. -/
def encodeChunks : List Nat → List Char
  | b0 :: b1 :: b2 :: rest =>
    let tmp := b0 * 65536 + b1 * 256 + b2
    b64Char (tmp / 262144 % 64) :: b64Char (tmp / 4096 % 64) ::
      b64Char (tmp / 64 % 64) :: b64Char (tmp % 64) :: encodeChunks rest
  | [b0, b1] =>
    let tmp := b0 * 256 + b1
    [b64Char (tmp / 1024), b64Char (tmp / 16 % 64), b64Char (tmp * 4 % 64), '=']
  | [b0] => [b64Char (b0 / 4), b64Char (b0 * 16 % 64), '=', '=']
  | [] => []

/-- `base64-js` `fromByteArray` as a string. -/
def fromByteArray (bytes : List Nat) : String :=
  (encodeChunks bytes).asString

/-- The byte value a decoder position contributes (`revLookup`), with the JS
coercion of an unknown character collapsing to 0. -/
def b64Val (c : Char) : Nat := (b64Val? c).getD 0

/-- `base64-js` `toByteArray` group loop: full groups yield 3 bytes; a group
padded with `=` or `==` yields 2 or 1 tail bytes and ends the input. -/
def decodeChunks : List Char → List Nat
  | c0 :: c1 :: c2 :: c3 :: rest =>
    if c2 = '=' then
      [(b64Val c0 * 4 + b64Val c1 / 16) % 256]
    else if c3 = '=' then
      let tmp := b64Val c0 * 1024 + b64Val c1 * 16 + b64Val c2 / 4
      [tmp / 256 % 256, tmp % 256]
    else
      let tmp := b64Val c0 * 262144 + b64Val c1 * 4096 + b64Val c2 * 64 + b64Val c3
      tmp / 65536 % 256 :: tmp / 256 % 256 :: tmp % 256 :: decodeChunks rest
  | _ => []

/-- `base64-js` `toByteArray`: validates that the length is a multiple of 4
(else it throws), then decodes groupwise. -/
def toByteArray (s : String) : Except String (List Nat) :=
  if s.toList.length % 4 ≠ 0 then
    .error "Invalid string. Length must be a multiple of 4"
  else .ok (decodeChunks s.toList)

/-! ## JSON (`JSON.stringify` / `JSON.parse`)

The JSON tree datatype carries integral numbers (the integral fragment of
JS numbers; fractional doubles are outside this model) and association
lists in insertion order for objects. -/

/-- A JSON value. -/
inductive JsonValue where
  | null
  | bool (b : Bool)
  | num (n : Int)
  | str (s : String)
  | arr (elems : List JsonValue)
  | obj (fields : List (String × JsonValue))

/-- The hexadecimal digit character of a value below 16, from the lowercase
hex alphabet. -/
def hexDigitChar (d : Nat) : Char :=
  "0123456789abcdef".toList.getD d '0'

/-- `JSON.stringify` escaping of one string character: `"` and `\` get a
backslash, the named control escapes are used where they exist, the
remaining control characters become `\u00XX`, everything else is literal. -/
def escapeChar (c : Char) : List Char :=
  if c = '"' then ['\\', '"']
  else if c = '\\' then ['\\', '\\']
  else if c = '\x08' then ['\\', 'b']
  else if c = '\t' then ['\\', 't']
  else if c = '\n' then ['\\', 'n']
  else if c = '\x0c' then ['\\', 'f']
  else if c = '\r' then ['\\', 'r']
  else if c.toNat < 32 then
    '\\' :: 'u' :: '0' :: '0' :: hexDigitChar (c.toNat / 16) :: [hexDigitChar (c.toNat % 16)]
  else [c]

/-- A JSON string literal: quotes around the escaped characters. -/
def quoteString (s : String) : List Char :=
  ['"'] ++ s.toList.flatMap escapeChar ++ ['"']

mutual

/-- `JSON.stringify` (no indent argument, hence no inserted whitespace). -/
def JsonValue.stringifyChars : JsonValue → List Char
  | .null => "null".toList
  | .bool true => "true".toList
  | .bool false => "false".toList
  | .num n => (intDec n).toList
  | .str s => quoteString s
  | .arr xs => '[' :: stringifyElems xs ++ [']']
  | .obj fs => '\x7b' :: stringifyFields fs ++ ['\x7d']

/-- Comma-separated array elements. -/
def stringifyElems : List JsonValue → List Char
  | [] => []
  | [x] => x.stringifyChars
  | x :: xs => x.stringifyChars ++ ',' :: stringifyElems xs

/-- Comma-separated `"key":value` object members. -/
def stringifyFields : List (String × JsonValue) → List Char
  | [] => []
  | [(k, v)] => quoteString k ++ ':' :: v.stringifyChars
  | (k, v) :: fs => quoteString k ++ ':' :: v.stringifyChars ++ ',' :: stringifyFields fs

end

/-- `JSON.stringify` as a string. -/
def JsonValue.stringify (v : JsonValue) : String :=
  v.stringifyChars.asString

/-- JSON token whitespace (space, tab, line feed, carriage return). -/
def jsonWS (c : Char) : Bool :=
  c = ' ' ∨ c = '\t' ∨ c = '\n' ∨ c = '\r'

/-- The continuation after a parsed value may not start with a decimal digit
(otherwise the digit would have been consumed by a numeric literal). -/
def noDigitLead : List Char → Prop
  | [] => True
  | c :: _ => digitVal? c = none

/-- Reads the body and closing quote of a JSON string literal, decoding
escapes; unescaped control characters are rejected as `JSON.parse` does. -/
def parseJStringBody (fuel : Nat) (cs : List Char) : Option (List Char × List Char) :=
  match fuel with
  | 0 => none
  | fuel + 1 =>
    match cs with
    | [] => none
    | c :: rest =>
      let cont (c : Char) (rest : List Char) : Option (List Char × List Char) :=
        (parseJStringBody fuel rest).map fun r => (c :: r.1, r.2)
      if c = '"' then some ([], rest)
      else if c = '\\' then
        match rest with
        | [] => none
        | e :: rest =>
          if e = '"' then cont '"' rest
          else if e = '\\' then cont '\\' rest
          else if e = '/' then cont '/' rest
          else if e = 'b' then cont '\x08' rest
          else if e = 'f' then cont '\x0c' rest
          else if e = 'n' then cont '\n' rest
          else if e = 'r' then cont '\r' rest
          else if e = 't' then cont '\t' rest
          else if e = 'u' then
            match rest with
            | h0 :: h1 :: h2 :: h3 :: rest' =>
              match hexVal? h0, hexVal? h1, hexVal? h2, hexVal? h3 with
              | some d0, some d1, some d2, some d3 =>
                cont (Char.ofNat (d0 * 4096 + d1 * 256 + d2 * 16 + d3)) rest'
              | _, _, _, _ => none
            | _ => none
          else none
      else if c.toNat < 32 then none
      else cont c rest

/-- Parses a JSON number as an integer (the model's numeric fragment):
optional `-`, then digits.  A fraction or exponent continuation is outside
the integral model and rejected. -/
def parseJNumber (cs : List Char) : Option (Int × List Char) :=
  match cs with
  | c :: rest =>
    if c = '-' then
      let (ds, rest') := takeDigits rest
      if ds = [] then none else some (-(digitsToNat ds : Int), rest')
    else
      let (ds, rest') := takeDigits (c :: rest)
      if ds = [] then none else some ((digitsToNat ds : Int), rest')
  | [] => none

mutual

/-- Recursive-descent `JSON.parse` of one value (leading whitespace already
skipped); `fuel` bounds the nesting depth. -/
def parseJValue (fuel : Nat) (cs : List Char) : Option (JsonValue × List Char) :=
  match fuel with
  | 0 => none
  | fuel + 1 =>
    match cs with
    | [] => none
    | c :: rest =>
      if c = 'n' then
        match rest with
        | 'u' :: 'l' :: 'l' :: rest' => some (.null, rest')
        | _ => none
      else if c = 't' then
        match rest with
        | 'r' :: 'u' :: 'e' :: rest' => some (.bool true, rest')
        | _ => none
      else if c = 'f' then
        match rest with
        | 'a' :: 'l' :: 's' :: 'e' :: rest' => some (.bool false, rest')
        | _ => none
      else if c = '"' then
        (parseJStringBody (rest.length + 1) rest).map fun r => (.str r.1.asString, r.2)
      else if c = '[' then
        match (rest.dropWhile jsonWS) with
        | ']' :: rest' => some (.arr [], rest')
        | rest' =>
          (parseJElems fuel rest').bind fun r =>
            match r.2.dropWhile jsonWS with
            | ']' :: rest'' => some (.arr r.1, rest'')
            | _ => none
      else if c = '\x7b' then
        match (rest.dropWhile jsonWS) with
        | '\x7d' :: rest' => some (.obj [], rest')
        | rest' =>
          (parseJFields fuel rest').bind fun r =>
            match r.2.dropWhile jsonWS with
            | '\x7d' :: rest'' => some (.obj r.1, rest'')
            | _ => none
      else (parseJNumber (c :: rest)).map fun r => (.num r.1, r.2)

/-- One-or-more comma-separated array elements. -/
def parseJElems (fuel : Nat) (cs : List Char) : Option (List JsonValue × List Char) :=
  match fuel with
  | 0 => none
  | fuel + 1 =>
    (parseJValue fuel (cs.dropWhile jsonWS)).bind fun r =>
      match r.2.dropWhile jsonWS with
      | ',' :: rest =>
        (parseJElems fuel rest).map fun r' => (r.1 :: r'.1, r'.2)
      | rest => some ([r.1], rest)

/-- One-or-more comma-separated `"key":value` object members. -/
def parseJFields (fuel : Nat) (cs : List Char) :
    Option (List (String × JsonValue) × List Char) :=
  match fuel with
  | 0 => none
  | fuel + 1 =>
    match cs.dropWhile jsonWS with
    | '"' :: rest =>
      (parseJStringBody (rest.length + 1) rest).bind fun k =>
        match k.2.dropWhile jsonWS with
        | ':' :: rest' =>
          (parseJValue fuel (rest'.dropWhile jsonWS)).bind fun v =>
            match v.2.dropWhile jsonWS with
            | ',' :: rest'' =>
              (parseJFields fuel rest'').map fun r' => ((k.1.asString, v.1) :: r'.1, r'.2)
            | rest'' => some ([(k.1.asString, v.1)], rest'')
        | _ => none
    | _ => none

end

/-- `JSON.parse`: parse one value surrounded by optional whitespace,
consuming the whole input. -/
def JsonValue.parse (s : String) : Except String JsonValue :=
  let cs := s.toList
  match parseJValue (cs.length + 1) (cs.dropWhile jsonWS) with
  | some (v, rest) =>
    if rest.dropWhile jsonWS = [] then .ok v else .error "Unexpected non-whitespace character after JSON"
  | none => .error "Unexpected token in JSON"

/-! ## Typed value wrappers

Each method is a function of the wrapper's key and the backend's current
content at that key. -/

namespace StringValueStorageWrapper

/-- `find()`: returns `this.storage.find(this.key)` unchanged. -/
def find (key : String) (st : Option String) : MethodRun (Option String) :=
  ⟨.ok st, [.find key]⟩

/-- `retrieve()`: reads the backend value and throws on a falsy result
(`undefined` or the empty string). -/
def retrieve (key : String) (st : Option String) : MethodRun String :=
  match st with
  | none => ⟨.error (noValueMsg key), [.find key]⟩
  | some s =>
    if s = "" then ⟨.error (noValueMsg key), [.find key]⟩
    else ⟨.ok s, [.find key]⟩

/-- `save(value)`: stores the string as-is. -/
def save (key : String) (value : String) : MethodRun Unit :=
  ⟨.ok (), [.save key value]⟩

end StringValueStorageWrapper

namespace NumberValueStorageWrapper

/-- `find()`: absent stays absent, otherwise `Number(storedValue)`. -/
def find (key : String) (st : Option String) : MethodRun (Option JSNum) :=
  match st with
  | none => ⟨.ok none, [.find key]⟩
  | some s => ⟨.ok (some (jsToNumber s)), [.find key]⟩

/-- `retrieve()`: calls `find()` and throws on a falsy result (`undefined`,
`0` or `NaN`). -/
def retrieve (key : String) (st : Option String) : MethodRun JSNum :=
  match st with
  | none => ⟨.error (noValueMsg key), [.find key]⟩
  | some s =>
    if (jsToNumber s).falsy then ⟨.error (noValueMsg key), [.find key]⟩
    else ⟨.ok (jsToNumber s), [.find key]⟩

/-- `save(value)`: stores `value.toString()`. -/
def save (key : String) (value : JSNum) : MethodRun Unit :=
  ⟨.ok (), [.save key (jsNumToString value)]⟩

end NumberValueStorageWrapper

namespace BooleanValueStorageWrapper

/-- `find()`: absent stays absent, otherwise `storedValue === '1'`. -/
def find (key : String) (st : Option String) : MethodRun (Option Bool) :=
  match st with
  | none => ⟨.ok none, [.find key]⟩
  | some s => ⟨.ok (some (s == "1")), [.find key]⟩

/-- `retrieve()`: calls `find()` and throws exactly when the result is
`undefined` (the check is `value === undefined`, not falsiness). -/
def retrieve (key : String) (st : Option String) : MethodRun Bool :=
  match st with
  | none => ⟨.error (noValueMsg key), [.find key]⟩
  | some s => ⟨.ok (s == "1"), [.find key]⟩

/-- `save(value)`: stores `'1'` for true and `'0'` for false. -/
def save (key : String) (value : Bool) : MethodRun Unit :=
  ⟨.ok (), [.save key (if value then "1" else "0")]⟩

end BooleanValueStorageWrapper

namespace DateValueStorageWrapper

/-- `find()`: absent stays absent; otherwise `Number(storedValue)`, throwing
when `isNaN(timestamp)`, else `new Date(timestamp)`. -/
def find (key : String) (st : Option String) : MethodRun (Option JSDate) :=
  match st with
  | none => ⟨.ok none, [.find key]⟩
  | some s =>
    if jsToNumber s = .nan then ⟨.error (invalidTimestampMsg key), [.find key]⟩
    else ⟨.ok (some (mkDate (jsToNumber s))), [.find key]⟩

/-- `retrieve()`: calls `find()` and throws exactly when the result is
`undefined`; a `find()` error propagates. -/
def retrieve (key : String) (st : Option String) : MethodRun JSDate :=
  match st with
  | none => ⟨.error (noValueMsg key), [.find key]⟩
  | some s =>
    if jsToNumber s = .nan then ⟨.error (invalidTimestampMsg key), [.find key]⟩
    else ⟨.ok (mkDate (jsToNumber s)), [.find key]⟩

/-- `save(value)`: stores `value.getTime().toString()` (the `instanceof
Date` guard always passes for a `JSDate`). -/
def save (key : String) (value : JSDate) : MethodRun Unit :=
  ⟨.ok (), [.save key (jsNumToString value.time)]⟩

end DateValueStorageWrapper

namespace JsonValueStorageWrapper

/-- `find()`: absent stays absent; otherwise `JSON.parse(storedValue)`,
wrapping a parse failure in an error naming the key. -/
def find (key : String) (st : Option String) : MethodRun (Option JsonValue) :=
  match st with
  | none => ⟨.ok none, [.find key]⟩
  | some s =>
    match JsonValue.parse s with
    | .ok v => ⟨.ok (some v), [.find key]⟩
    | .error m => ⟨.error (jsonParseFailMsg key m), [.find key]⟩

/-- `retrieve()`: calls `find()` and throws exactly when the result is
`undefined`; a `find()` error propagates. -/
def retrieve (key : String) (st : Option String) : MethodRun JsonValue :=
  match st with
  | none => ⟨.error (noValueMsg key), [.find key]⟩
  | some s =>
    match JsonValue.parse s with
    | .ok v => ⟨.ok v, [.find key]⟩
    | .error m => ⟨.error (jsonParseFailMsg key m), [.find key]⟩

/-- `save(value)`: stores `JSON.stringify(value)` (serializing a JSON tree
value never throws, so the catch branch is unreachable in the model). -/
def save (key : String) (value : JsonValue) : MethodRun Unit :=
  ⟨.ok (), [.save key value.stringify]⟩

end JsonValueStorageWrapper

namespace Uint8ArrayValueStorageWrapper

/-- `find()`: a falsy stored value (`undefined` or the empty string) becomes
`undefined`; otherwise `base64.toByteArray(storedValue)`, whose length
validation error propagates uncaught. -/
def find (key : String) (st : Option String) : MethodRun (Option (List Nat)) :=
  match st with
  | none => ⟨.ok none, [.find key]⟩
  | some s =>
    if s = "" then ⟨.ok none, [.find key]⟩
    else
      match toByteArray s with
      | .ok bs => ⟨.ok (some bs), [.find key]⟩
      | .error e => ⟨.error e, [.find key]⟩

/-- `retrieve()`: calls `find()` and throws on a falsy result; a `Uint8Array`
is always truthy, so only `undefined` throws. -/
def retrieve (key : String) (st : Option String) : MethodRun (List Nat) :=
  match st with
  | none => ⟨.error (noValueMsg key), [.find key]⟩
  | some s =>
    if s = "" then ⟨.error (noValueMsg key), [.find key]⟩
    else
      match toByteArray s with
      | .ok bs => ⟨.ok bs, [.find key]⟩
      | .error e => ⟨.error e, [.find key]⟩

/-- `save(value)`: stores `base64.fromByteArray(value)`. -/
def save (key : String) (value : List Nat) : MethodRun Unit :=
  ⟨.ok (), [.save key (fromByteArray value)]⟩

end Uint8ArrayValueStorageWrapper

/-! ## The JSON collection wrapper

`JsonValuesStorageWrapper<T>` is generic in the item type and the
caller-supplied three-way comparator.  Its item operations read the whole
decoded array (`(await this.find()) ?? []`), work in memory, and save the
whole array back; they are embedded here at the decoded level, over the
array the backend currently holds (`Option (List α)`), recording the array
passed to each issued `save`.  The JSON codec threading the arrays through
the backend string is `JsonValue.parse` / `JsonValue.stringify` above. -/

/-- One run of a collection-wrapper method: the result (or thrown error
message) and the arrays passed to `save`, in order. -/
structure CollRun (α : Type) (β : Type) where
  result : Except String β
  saved : List (List α)

namespace JsonValuesStorageWrapper

/-- `updateItem(item)`: replaces the first element with comparator result 0
in place and saves; with no match it throws before any save. -/
def updateItem {α : Type} (cmp : α → α → Int) (st : Option (List α)) (item : α) :
    CollRun α Unit :=
  let items := st.getD []
  match items.findIdx? fun i => cmp i item == 0 with
  | some idx => ⟨.ok (), [items.set idx item]⟩
  | none => ⟨.error itemNotFoundMsg, []⟩

/-- The `currentItems.forEach((item, outerIndex) => ...)` loop of
`updateItems`: at each index, `innerIndex = items.findIndex(i =>
compareItem(i, item) === 0)`, and on a hit `currentItems[outerIndex] =
items[innerIndex]`.  The loop reads each index before overwriting it. -/
def updateItemsGo {α : Type} (cmp : α → α → Int) (input : List α) (arr : List α) (i : Nat) :
    List α :=
  if h : i < arr.length then
    let item := arr.get ⟨i, h⟩
    let arr' :=
      match input.findIdx? fun x => cmp x item == 0 with
      | some j => arr.set i (input.getD j item)
      | none => arr
    updateItemsGo cmp input arr' (i + 1)
  else arr
termination_by arr.length - i
decreasing_by
  split
  · simp only [List.length_set]
    omega
  · omega

/-- `updateItems(items)`: runs the in-place update loop over the stored
array, then saves the whole array back. -/
def updateItems {α : Type} (cmp : α → α → Int) (st : Option (List α)) (input : List α) :
    CollRun α Unit :=
  ⟨.ok (), [updateItemsGo cmp input (st.getD []) 0]⟩

/-- `removeItem(item)`: splices out the first element with comparator result
0 if any, then saves unconditionally. -/
def removeItem {α : Type} (cmp : α → α → Int) (st : Option (List α)) (item : α) :
    CollRun α Unit :=
  let items := st.getD []
  match items.findIdx? fun i => cmp i item == 0 with
  | some idx => ⟨.ok (), [items.eraseIdx idx]⟩
  | none => ⟨.ok (), [items]⟩

/-- `getItemsByFilter(filterItem)`: returns the matching subsequence; no
save. -/
def getItemsByFilter {α : Type} (st : Option (List α)) (filterItem : α → Bool) :
    CollRun α (List α) :=
  ⟨.ok ((st.getD []).filter filterItem), []⟩

/-- `sortItems(compareItem?)`: sorts the freshly read array with the given
(or default) comparator and returns it; no save.  JS `Array.prototype.sort`
is a stable sort, modelled by `List.mergeSort`. -/
def sortItems {α : Type} (cmp : α → α → Int) (st : Option (List α)) :
    CollRun α (List α) :=
  ⟨.ok ((st.getD []).mergeSort fun a b => cmp a b ≤ 0), []⟩

end JsonValuesStorageWrapper

/-! ## Lemmas: decimal printing inverts parsing -/

theorem toList_asString (l : List Char) : (l.asString).toList = l := rfl

/-- The facts about digit characters the parsing lemmas case on. -/
theorem digitChar_spec (d : Nat) (hd : d < 10) : digitVal? (digitChar d) = some d ∧
    isStrWS (digitChar d) = false ∧ jsonWS (digitChar d) = false ∧
    digitChar d ≠ '+' ∧ digitChar d ≠ '-' ∧ digitChar d ≠ 'I' ∧
    digitChar d ≠ ']' ∧ digitChar d ≠ '\x7d' ∧ digitChar d ≠ ',' ∧
    digitChar d ≠ '"' ∧ digitChar d ≠ 'n' ∧ digitChar d ≠ 't' ∧
    digitChar d ≠ 'f' ∧ digitChar d ≠ '[' ∧ digitChar d ≠ '\x7b' ∧
    digitChar d ≠ 'x' ∧ digitChar d ≠ 'X' ∧ digitChar d ≠ 'o' ∧
    digitChar d ≠ 'O' ∧ digitChar d ≠ 'b' ∧ digitChar d ≠ 'B' ∧
    digitChar d ≠ '=' := by interval_cases d <;> decide

theorem natDigitsRev_lt : ∀ fuel n d, d ∈ natDigitsRev fuel n → d < 10 := by
  intro fuel
  induction fuel with
  | zero => intro n d h; simp [natDigitsRev] at h
  | succ fuel ih =>
    intro n d h
    by_cases hn : n = 0
    · simp [natDigitsRev, hn] at h
    · simp only [natDigitsRev, if_neg hn, List.mem_cons] at h
      rcases h with h | h
      · omega
      · exact ih _ _ h

theorem natDigitsRev_val : ∀ fuel n, n ≤ fuel →
    (natDigitsRev fuel n).foldr (fun d a => 10 * a + d) 0 = n := by
  intro fuel
  induction fuel with
  | zero => intro n h; interval_cases n; simp [natDigitsRev]
  | succ fuel ih =>
    intro n h
    by_cases hn : n = 0
    · simp [natDigitsRev, hn]
    · have hdiv : n / 10 ≤ fuel := by omega
      simp only [natDigitsRev, if_neg hn, List.foldr_cons, ih _ hdiv]
      omega

theorem digitsToNat_reverse (l : List Nat) :
    digitsToNat l.reverse = l.foldr (fun d a => 10 * a + d) 0 := by
  simp [digitsToNat, List.foldl_reverse]

/-- `natDec` produces a non-empty list of digit characters whose value is the
printed number. -/
theorem natDec_spec (n : Nat) : ∃ ds, natDec n = ds.map digitChar ∧ ds ≠ [] ∧
    (∀ d ∈ ds, d < 10) ∧ digitsToNat ds = n := by
  by_cases hn : n = 0
  · exact ⟨[0], by simp [natDec, hn, digitChar], by simp, by simp, by simp [digitsToNat, hn]⟩
  · refine ⟨(natDigitsRev n n).reverse, by simp [natDec, hn], ?_, ?_, ?_⟩
    · have : natDigitsRev n n = n % 10 :: natDigitsRev (n - 1) (n / 10) := by
        cases n with
        | zero => omega
        | succ m => simp [natDigitsRev, hn]
      simp [this]
    · intro d hd
      exact natDigitsRev_lt n n d (List.mem_reverse.mp hd)
    · rw [digitsToNat_reverse, natDigitsRev_val n n le_rfl]

theorem takeDigits_map (ds : List Nat) (h : ∀ d ∈ ds, d < 10) :
    takeDigits (ds.map digitChar) = (ds, []) := by
  induction ds with
  | nil => rfl
  | cons d ds ih =>
    have hd := (digitChar_spec d (h d (by simp))).1
    simp only [List.map_cons, takeDigits, hd]
    rw [ih fun x hx => h x (by simp [hx])]

theorem parseExpPart_nil : parseExpPart [] = some 0 := rfl

theorem parseDecimal_digits (ds : List Nat) (h : ∀ d ∈ ds, d < 10) (hne : ds ≠ []) :
    parseDecimal (ds.map digitChar) = some (digitsToNat ds : ℚ) := by
  have ht := takeDigits_map ds h
  cases hds : ds with
  | nil => exact absurd hds hne
  | cons d ds' =>
    subst hds
    simp only [parseDecimal, ht]
    have hd := digitChar_spec d (h d (by simp))
    simp [parseExpPart_nil, decLitValue]

theorem dropWhile_eq_self_of_all {p : Char → Bool} {l : List Char}
    (h : ∀ c ∈ l, p c = false) : l.dropWhile p = l := by
  cases l with
  | nil => rfl
  | cons c cs => simp [List.dropWhile_cons, h c (by simp)]

theorem trimWS_eq_self {cs : List Char} (h : ∀ c ∈ cs, isStrWS c = false) :
    trimWS cs = cs := by
  unfold trimWS
  rw [dropWhile_eq_self_of_all h,
    dropWhile_eq_self_of_all fun c hc => h c (List.mem_reverse.mp hc), List.reverse_reverse]

theorem parseNonDecimal_digits (ds : List Nat) (h : ∀ d ∈ ds, d < 10) :
    parseNonDecimal (ds.map digitChar) = none := by
  cases ds with
  | nil => rfl
  | cons d0 ds' =>
    cases ds' with
    | nil => rfl
    | cons d1 ds'' =>
      have h1 := digitChar_spec d1 (h d1 (by simp))
      by_cases h0 : digitChar d0 = '0' <;>
        simp [parseNonDecimal, h0, h1.2.2.2.2.2.2.2.2.2.2.2.2.2.2.2]

theorem infinity_toList : "Infinity".toList = ['I', 'n', 'f', 'i', 'n', 'i', 't', 'y'] := rfl

theorem parseUnsignedNumeric_digits (ds : List Nat) (h : ∀ d ∈ ds, d < 10)
    (hne : ds ≠ []) :
    parseUnsignedNumeric (ds.map digitChar) = some (.num (digitsToNat ds : ℚ)) := by
  cases ds with
  | nil => exact absurd rfl hne
  | cons d ds' =>
    have hd := digitChar_spec d (h d (by simp))
    rw [parseUnsignedNumeric, if_neg (by simp [infinity_toList, hd.2.2.2.2.2.1]),
      parseDecimal_digits _ h hne]
    rfl

theorem jsToNumberAux_digits (ds : List Nat) (h : ∀ d ∈ ds, d < 10) (hne : ds ≠ []) :
    jsToNumberAux (ds.map digitChar) = .num (digitsToNat ds : ℚ) := by
  cases ds with
  | nil => exact absurd rfl hne
  | cons d ds' =>
    have hd := digitChar_spec d (h d (by simp))
    have hnd := parseNonDecimal_digits (d :: ds') h
    have hun := parseUnsignedNumeric_digits (d :: ds') h (by simp)
    simp only [List.map_cons] at hnd hun ⊢
    rw [jsToNumberAux, if_neg hd.2.2.2.1, if_neg hd.2.2.2.2.1]
    simp [hnd, hun, Option.orElse]

theorem jsToNumber_natDec (m : Nat) : jsToNumber (natDec m).asString = .num m := by
  obtain ⟨ds, hds, hne, hlt, hval⟩ := natDec_spec m
  rw [jsToNumber, toList_asString, hds,
    trimWS_eq_self (by
      intro c hc
      obtain ⟨d, hd, rfl⟩ := List.mem_map.mp hc
      exact (digitChar_spec d (hlt d hd)).2.1),
    jsToNumberAux_digits ds hlt hne, hval]

theorem jsToNumber_intDec (n : Int) : jsToNumber (intDec n) = .num n := by
  cases n with
  | ofNat m => simpa [intDec] using jsToNumber_natDec m
  | negSucc m =>
    obtain ⟨ds, hds, hne, hlt, hval⟩ := natDec_spec (m + 1)
    rw [intDec, jsToNumber, toList_asString, hds,
      trimWS_eq_self (by
        intro c hc
        rcases List.mem_cons.mp hc with rfl | hc
        · rfl
        · obtain ⟨d, hd, rfl⟩ := List.mem_map.mp hc
          exact (digitChar_spec d (hlt d hd)).2.1),
      jsToNumberAux, if_neg (by decide), if_pos rfl,
      parseUnsignedNumeric_digits ds hlt hne, hval]
    simp [JSNum.negate, Int.negSucc_eq]

/-! ## Lemmas: base64 decoding inverts encoding -/

theorem b64Char_spec (n : Nat) (h : n < 64) :
    b64Val? (b64Char n) = some n ∧ b64Char n ≠ '=' := by
  interval_cases n <;> decide

theorem b64Val_b64Char (n : Nat) (h : n < 64) : b64Val (b64Char n) = n := by
  simp [b64Val, (b64Char_spec n h).1]

theorem decodeChunks_encodeChunks : ∀ (l : List Nat), (∀ b ∈ l, b < 256) →
    decodeChunks (encodeChunks l) = l
  | [], _ => rfl
  | [b0], h => by
    have hb0 : b0 < 256 := h b0 (by simp)
    rw [encodeChunks, decodeChunks, if_pos rfl,
      b64Val_b64Char _ (by omega), b64Val_b64Char _ (by omega)]
    congr 1
    omega
  | [b0, b1], h => by
    have hb0 : b0 < 256 := h b0 (by simp)
    have hb1 : b1 < 256 := h b1 (by simp)
    rw [encodeChunks, decodeChunks,
      if_neg (b64Char_spec _ (by omega)).2, if_pos rfl,
      b64Val_b64Char _ (by omega), b64Val_b64Char _ (by omega),
      b64Val_b64Char _ (by omega)]
    simp only [List.cons.injEq, and_true]
    refine ⟨?_, ?_⟩ <;> omega
  | b0 :: b1 :: b2 :: rest, h => by
    have hb0 : b0 < 256 := h b0 (by simp)
    have hb1 : b1 < 256 := h b1 (by simp)
    have hb2 : b2 < 256 := h b2 (by simp)
    rw [encodeChunks, decodeChunks,
      if_neg (b64Char_spec _ (by omega)).2, if_neg (b64Char_spec _ (by omega)).2,
      b64Val_b64Char _ (by omega), b64Val_b64Char _ (by omega),
      b64Val_b64Char _ (by omega), b64Val_b64Char _ (by omega),
      decodeChunks_encodeChunks rest fun b hb => h b (by simp [hb])]
    simp only [List.cons.injEq, and_true]
    refine ⟨?_, ?_, ?_⟩ <;> omega

theorem encodeChunks_length_mod : ∀ (l : List Nat), (encodeChunks l).length % 4 = 0
  | [] => rfl
  | [_] => by simp [encodeChunks]
  | [_, _] => by simp [encodeChunks]
  | _ :: _ :: _ :: rest => by
    have ih := encodeChunks_length_mod rest
    rw [encodeChunks]
    simp only [List.length_cons]
    omega

/-- Decoding inverts encoding (`base64-js` round-trip). -/
theorem toByteArray_fromByteArray (l : List Nat) (h : ∀ b ∈ l, b < 256) :
    toByteArray (fromByteArray l) = .ok l := by
  rw [toByteArray, fromByteArray, if_neg (by simp [toList_asString, encodeChunks_length_mod]),
    toList_asString, decodeChunks_encodeChunks l h]

/-! ## Lemmas: `JSON.parse` inverts `JSON.stringify` -/

theorem hexVal_hexDigitChar (d : Nat) (h : d < 16) :
    hexVal? (hexDigitChar d) = some d := by
  interval_cases d <;> decide

theorem takeDigits_map_append (ds : List Nat) (h : ∀ d ∈ ds, d < 10)
    (rest : List Char) (hrest : noDigitLead rest) :
    takeDigits (ds.map digitChar ++ rest) = (ds, rest) := by
  induction ds with
  | nil =>
    cases rest with
    | nil => rfl
    | cons c cs =>
      have hc : digitVal? c = none := hrest
      simp [takeDigits, hc]
  | cons d ds ih =>
    have hd := (digitChar_spec d (h d (by simp))).1
    simp only [List.map_cons, List.cons_append, takeDigits, hd]
    rw [show (List.map digitChar ds).append rest = List.map digitChar ds ++ rest from rfl,
      ih fun x hx => h x (by simp [hx])]

theorem parseJNumber_intDec (n : Int) (rest : List Char) (hrest : noDigitLead rest) :
    parseJNumber ((intDec n).toList ++ rest) = some (n, rest) := by
  cases n with
  | ofNat m =>
    obtain ⟨ds, hds, hne, hlt, hval⟩ := natDec_spec m
    rw [show (intDec (Int.ofNat m)).toList = natDec m from rfl, hds]
    cases ds with
    | nil => exact absurd rfl hne
    | cons d ds' =>
      have hd := digitChar_spec d (hlt d (by simp))
      simp only [List.map_cons, List.cons_append, parseJNumber, if_neg hd.2.2.2.2.1]
      have ht := takeDigits_map_append (d :: ds') hlt rest hrest
      simp only [List.map_cons, List.cons_append] at ht
      rw [ht]
      simp [hval]
  | negSucc m =>
    obtain ⟨ds, hds, hne, hlt, hval⟩ := natDec_spec (m + 1)
    rw [show (intDec (Int.negSucc m)).toList = '-' :: natDec (m + 1) from rfl, hds]
    simp only [List.cons_append, parseJNumber, if_pos rfl,
      takeDigits_map_append ds hlt rest hrest]
    simp [hne, hval, Int.negSucc_eq]


/-- Walking the escaped form of one character, the string-body parser
recovers that character. -/
theorem parseJStringBody_escape : ∀ (l : List Char) (rest : List Char) (fuel : Nat),
    (l.flatMap escapeChar).length < fuel →
    parseJStringBody fuel (l.flatMap escapeChar ++ '"' :: rest) = some (l, rest)
  | [], rest, fuel, h => by
    cases fuel with
    | zero => omega
    | succ f => rfl
  | c :: l, rest, fuel, h => by
    rw [List.flatMap_cons] at h ⊢
    by_cases h1 : c = '"'
    · subst h1
      rw [show escapeChar '"' = ['\\', '"'] from rfl] at h ⊢
      simp only [List.length_append, List.length_cons] at h
      cases fuel with
      | zero => omega
      | succ f =>
        calc parseJStringBody (f + 1) (['\\', '"'] ++ (l.flatMap escapeChar ++ '"' :: rest))
            = (parseJStringBody f (l.flatMap escapeChar ++ '"' :: rest)).map
                fun r => ('"' :: r.1, r.2) := rfl
          _ = some ('"' :: l, rest) := by
              rw [parseJStringBody_escape l rest f (by omega)]
              rfl
    · by_cases h2 : c = '\\'
      · subst h2
        rw [show escapeChar '\\' = ['\\', '\\'] from rfl] at h ⊢
        simp only [List.length_append, List.length_cons] at h
        cases fuel with
        | zero => omega
        | succ f =>
          calc parseJStringBody (f + 1) (['\\', '\\'] ++ (l.flatMap escapeChar ++ '"' :: rest))
              = (parseJStringBody f (l.flatMap escapeChar ++ '"' :: rest)).map
                  fun r => ('\\' :: r.1, r.2) := rfl
            _ = some ('\\' :: l, rest) := by
                rw [parseJStringBody_escape l rest f (by omega)]
                rfl
      · by_cases h3 : c = '\x08'
        · subst h3
          rw [show escapeChar '\x08' = ['\\', 'b'] from rfl] at h ⊢
          simp only [List.length_append, List.length_cons] at h
          cases fuel with
          | zero => omega
          | succ f =>
            calc parseJStringBody (f + 1) (['\\', 'b'] ++ (l.flatMap escapeChar ++ '"' :: rest))
                = (parseJStringBody f (l.flatMap escapeChar ++ '"' :: rest)).map
                    fun r => ('\x08' :: r.1, r.2) := rfl
              _ = some ('\x08' :: l, rest) := by
                  rw [parseJStringBody_escape l rest f (by omega)]
                  rfl
        · by_cases h4 : c = '\t'
          · subst h4
            rw [show escapeChar '\t' = ['\\', 't'] from rfl] at h ⊢
            simp only [List.length_append, List.length_cons] at h
            cases fuel with
            | zero => omega
            | succ f =>
              calc parseJStringBody (f + 1) (['\\', 't'] ++ (l.flatMap escapeChar ++ '"' :: rest))
                  = (parseJStringBody f (l.flatMap escapeChar ++ '"' :: rest)).map
                      fun r => ('\t' :: r.1, r.2) := rfl
                _ = some ('\t' :: l, rest) := by
                    rw [parseJStringBody_escape l rest f (by omega)]
                    rfl
          · by_cases h5 : c = '\n'
            · subst h5
              rw [show escapeChar '\n' = ['\\', 'n'] from rfl] at h ⊢
              simp only [List.length_append, List.length_cons] at h
              cases fuel with
              | zero => omega
              | succ f =>
                calc parseJStringBody (f + 1)
                      (['\\', 'n'] ++ (l.flatMap escapeChar ++ '"' :: rest))
                    = (parseJStringBody f (l.flatMap escapeChar ++ '"' :: rest)).map
                        fun r => ('\n' :: r.1, r.2) := rfl
                  _ = some ('\n' :: l, rest) := by
                      rw [parseJStringBody_escape l rest f (by omega)]
                      rfl
            · by_cases h6 : c = '\x0c'
              · subst h6
                rw [show escapeChar '\x0c' = ['\\', 'f'] from rfl] at h ⊢
                simp only [List.length_append, List.length_cons] at h
                cases fuel with
                | zero => omega
                | succ f =>
                  calc parseJStringBody (f + 1)
                        (['\\', 'f'] ++ (l.flatMap escapeChar ++ '"' :: rest))
                      = (parseJStringBody f (l.flatMap escapeChar ++ '"' :: rest)).map
                          fun r => ('\x0c' :: r.1, r.2) := rfl
                    _ = some ('\x0c' :: l, rest) := by
                        rw [parseJStringBody_escape l rest f (by omega)]
                        rfl
              · by_cases h7 : c = '\r'
                · subst h7
                  rw [show escapeChar '\r' = ['\\', 'r'] from rfl] at h ⊢
                  simp only [List.length_append, List.length_cons] at h
                  cases fuel with
                  | zero => omega
                  | succ f =>
                    calc parseJStringBody (f + 1)
                          (['\\', 'r'] ++ (l.flatMap escapeChar ++ '"' :: rest))
                        = (parseJStringBody f (l.flatMap escapeChar ++ '"' :: rest)).map
                            fun r => ('\r' :: r.1, r.2) := rfl
                      _ = some ('\r' :: l, rest) := by
                          rw [parseJStringBody_escape l rest f (by omega)]
                          rfl
                · by_cases h8 : c.toNat < 32
                  · have hesc : escapeChar c =
                        '\\' :: 'u' :: '0' :: '0' :: hexDigitChar (c.toNat / 16) ::
                          [hexDigitChar (c.toNat % 16)] := by
                      rw [escapeChar, if_neg h1, if_neg h2, if_neg h3, if_neg h4,
                        if_neg h5, if_neg h6, if_neg h7, if_pos h8]
                    rw [hesc] at h ⊢
                    simp only [List.length_append, List.length_cons] at h
                    cases fuel with
                    | zero => omega
                    | succ f =>
                      rw [parseJStringBody.eq_def]
                      simp only [List.cons_append, List.nil_append]
                      simp only [reduceIte]
                      rw [show hexVal? '0' = some 0 from rfl,
                        hexVal_hexDigitChar (c.toNat / 16) (by omega),
                        hexVal_hexDigitChar (c.toNat % 16) (by omega)]
                      simp only []
                      rw [parseJStringBody_escape l rest f (by omega)]
                      rw [show 0 * 4096 + 0 * 256 + c.toNat / 16 * 16 + c.toNat % 16
                          = c.toNat by omega, Char.ofNat_toNat]
                      rfl
                  · have hesc : escapeChar c = [c] := by
                      rw [escapeChar, if_neg h1, if_neg h2, if_neg h3, if_neg h4,
                        if_neg h5, if_neg h6, if_neg h7, if_neg h8]
                    rw [hesc] at h ⊢
                    simp only [List.length_append, List.length_cons] at h
                    cases fuel with
                    | zero => omega
                    | succ f =>
                      rw [parseJStringBody.eq_def]
                      simp only [List.cons_append, List.nil_append]
                      simp only [if_neg h1, if_neg h2, if_neg h8]
                      rw [parseJStringBody_escape l rest f (by omega)]
                      rfl

theorem stringifyElems_cons_ne (x y : JsonValue) (ys : List JsonValue) :
    stringifyElems (x :: y :: ys) = x.stringifyChars ++ ',' :: stringifyElems (y :: ys) := rfl

theorem stringifyFields_cons_ne (k : String) (v : JsonValue) (g : String × JsonValue)
    (fs : List (String × JsonValue)) :
    stringifyFields ((k, v) :: g :: fs) =
      quoteString k ++ ':' :: v.stringifyChars ++ ',' :: stringifyFields (g :: fs) := rfl

/-- Every serialized value starts with a character that is not whitespace,
not a closing bracket or brace, and not a comma. -/
theorem stringifyChars_head (v : JsonValue) : ∃ c tl, v.stringifyChars = c :: tl ∧
    jsonWS c = false ∧ c ≠ ']' ∧ c ≠ '\x7d' ∧ c ≠ ',' := by
  cases v with
  | null => exact ⟨'n', _, rfl, by decide⟩
  | bool b =>
    cases b with
    | true => exact ⟨'t', _, rfl, by decide⟩
    | false => exact ⟨'f', _, rfl, by decide⟩
  | num n =>
    cases n with
    | ofNat m =>
      obtain ⟨ds, hds, hne, hlt, hval⟩ := natDec_spec m
      cases ds with
      | nil => exact absurd rfl hne
      | cons d ds' =>
        have hd := digitChar_spec d (hlt d (by simp))
        exact ⟨digitChar d, ds'.map digitChar,
          by rw [show (JsonValue.num (Int.ofNat m)).stringifyChars = natDec m from rfl, hds,
            List.map_cons],
          hd.2.2.1, hd.2.2.2.2.2.2.1, hd.2.2.2.2.2.2.2.1, hd.2.2.2.2.2.2.2.2.1⟩
    | negSucc m =>
      exact ⟨'-', _,
        by rw [show (JsonValue.num (Int.negSucc m)).stringifyChars
            = '-' :: natDec (m + 1) from rfl],
        by decide⟩
  | str s => exact ⟨'"', _, rfl, by decide⟩
  | arr xs => exact ⟨'[', _, rfl, by decide⟩
  | obj fs => exact ⟨'\x7b', _, rfl, by decide⟩

theorem dropWhile_stringify_append (v : JsonValue) (suffix : List Char) :
    (v.stringifyChars ++ suffix).dropWhile jsonWS = v.stringifyChars ++ suffix := by
  obtain ⟨c, tl, hsc, hws, -, -, -⟩ := stringifyChars_head v
  rw [hsc, List.cons_append, List.dropWhile_cons, hws]
  simp

/-- A serialized non-empty element list (with anything appended) starts with
a character that is neither whitespace nor `]`. -/
theorem stringifyElems_shape (x : JsonValue) (xs : List JsonValue) (suffix : List Char) :
    ∃ c tl, stringifyElems (x :: xs) ++ suffix = c :: tl ∧ jsonWS c = false ∧ c ≠ ']' := by
  obtain ⟨c, tl, hsc, hws, hnr, -, -⟩ := stringifyChars_head x
  cases xs with
  | nil =>
    exact ⟨c, tl ++ suffix, by rw [show stringifyElems [x] = x.stringifyChars from rfl,
      hsc, List.cons_append], hws, hnr⟩
  | cons y ys =>
    exact ⟨c, tl ++ ',' :: stringifyElems (y :: ys) ++ suffix,
      by rw [stringifyElems_cons_ne, hsc]; simp, hws, hnr⟩

theorem parseJValue_intDec (n : Int) (f : Nat) (rest : List Char) (hrest : noDigitLead rest) :
    parseJValue (f + 1) ((intDec n).toList ++ rest) = some (.num n, rest) := by
  have hnum := parseJNumber_intDec n rest hrest
  cases n with
  | ofNat m =>
    obtain ⟨ds, hds, hne, hlt, hval⟩ := natDec_spec m
    rw [show (intDec (Int.ofNat m)).toList = natDec m from rfl, hds] at hnum ⊢
    cases ds with
    | nil => exact absurd rfl hne
    | cons d ds' =>
      have hd := digitChar_spec d (hlt d (by simp))
      simp only [List.map_cons, List.cons_append] at hnum ⊢
      rw [parseJValue.eq_def]
      simp only [if_neg hd.2.2.2.2.2.2.2.2.2.2.1, if_neg hd.2.2.2.2.2.2.2.2.2.2.2.1,
        if_neg hd.2.2.2.2.2.2.2.2.2.2.2.2.1, if_neg hd.2.2.2.2.2.2.2.2.2.1,
        if_neg hd.2.2.2.2.2.2.2.2.2.2.2.2.2.1, if_neg hd.2.2.2.2.2.2.2.2.2.2.2.2.2.2.1]
      rw [hnum]
      rfl
  | negSucc m =>
    rw [show (intDec (Int.negSucc m)).toList = '-' :: natDec (m + 1) from rfl] at hnum ⊢
    rw [List.cons_append] at hnum ⊢
    calc parseJValue (f + 1) ('-' :: (natDec (m + 1) ++ rest))
        = (parseJNumber ('-' :: (natDec (m + 1) ++ rest))).map
            fun r => (JsonValue.num r.1, r.2) := rfl
      _ = some (.num (Int.negSucc m), rest) := by rw [hnum]; rfl

/-- A serialized non-empty field list (with anything appended) starts with
the opening quote of the first key. -/
theorem stringifyFields_shape (k : String) (v : JsonValue)
    (fs : List (String × JsonValue)) (suffix : List Char) :
    ∃ tl, stringifyFields ((k, v) :: fs) ++ suffix = '"' :: tl := by
  cases fs with
  | nil =>
    refine ⟨k.toList.flatMap escapeChar ++ '"' :: ':' :: (v.stringifyChars ++ suffix), ?_⟩
    rw [show stringifyFields [(k, v)] = quoteString k ++ ':' :: v.stringifyChars from rfl,
      show quoteString k = ('"' :: k.toList.flatMap escapeChar) ++ ['"'] from rfl]
    simp [List.cons_append, List.append_assoc]
  | cons g fs' =>
    refine ⟨k.toList.flatMap escapeChar ++ '"' :: ':' ::
      (v.stringifyChars ++ ',' :: stringifyFields (g :: fs') ++ suffix), ?_⟩
    rw [stringifyFields_cons_ne,
      show quoteString k = ('"' :: k.toList.flatMap escapeChar) ++ ['"'] from rfl]
    simp [List.cons_append, List.append_assoc]

theorem parseJElems_cons_general (f : Nat) (x : JsonValue) (TAIL : List Char)
    (hx : parseJValue f (x.stringifyChars ++ TAIL) = some (x, TAIL)) :
    parseJElems (f + 1) (x.stringifyChars ++ TAIL) =
      (match TAIL.dropWhile jsonWS with
      | ',' :: rest' => (parseJElems f rest').map fun r' => (x :: r'.1, r'.2)
      | rest' => some ([x], rest')) := by
  refine Eq.trans (b :=
    (parseJValue f ((x.stringifyChars ++ TAIL).dropWhile jsonWS)).bind fun r =>
      match r.2.dropWhile jsonWS with
      | ',' :: rest' => (parseJElems f rest').map fun r' => (r.1 :: r'.1, r'.2)
      | rest' => some ([r.1], rest')) rfl ?_
  rw [dropWhile_stringify_append, hx]
  simp only [Option.some_bind]

theorem parseJFields_cons_general (f : Nat) (k : String) (v : JsonValue) (TAIL : List Char)
    (hv : parseJValue f (v.stringifyChars ++ TAIL) = some (v, TAIL)) :
    parseJFields (f + 1) ((quoteString k ++ ':' :: v.stringifyChars) ++ TAIL) =
      (match TAIL.dropWhile jsonWS with
      | ',' :: rest'' => (parseJFields f rest'').map fun r' => ((k, v) :: r'.1, r'.2)
      | rest'' => some ([(k, v)], rest'')) := by
  rw [show quoteString k = ('"' :: k.toList.flatMap escapeChar) ++ ['"'] from rfl]
  simp only [List.cons_append, List.append_assoc, List.singleton_append, List.nil_append]
  refine Eq.trans (b :=
    (parseJStringBody
        ((k.toList.flatMap escapeChar ++ '"' :: ':' :: (v.stringifyChars ++ TAIL)).length + 1)
        (k.toList.flatMap escapeChar ++ '"' :: ':' :: (v.stringifyChars ++ TAIL))).bind fun kk =>
      match kk.2.dropWhile jsonWS with
      | ':' :: rest' => (parseJValue f (rest'.dropWhile jsonWS)).bind fun vv =>
          match vv.2.dropWhile jsonWS with
          | ',' :: rest'' =>
            (parseJFields f rest'').map fun r' => ((kk.1.asString, vv.1) :: r'.1, r'.2)
          | rest'' => some ([(kk.1.asString, vv.1)], rest'')
      | _ => none) rfl ?_
  rw [parseJStringBody_escape k.toList (':' :: (v.stringifyChars ++ TAIL)) _
    (by simp only [List.length_append, List.length_cons]; omega)]
  simp only [Option.some_bind]
  rw [show (':' :: (v.stringifyChars ++ TAIL)).dropWhile jsonWS
      = ':' :: (v.stringifyChars ++ TAIL) from rfl]
  simp only []
  rw [dropWhile_stringify_append, hv]
  simp only [Option.some_bind]
  rfl

/-- The parser run with enough fuel inverts serialization — for values with
any non-digit-led continuation, and for non-empty element and field lists
followed by their closing bracket. -/
theorem parseJ_stringify (fuel : Nat) :
    (∀ (v : JsonValue) (rest : List Char),
      (v.stringifyChars).length < fuel → noDigitLead rest →
      parseJValue fuel (v.stringifyChars ++ rest) = some (v, rest)) ∧
    (∀ (x : JsonValue) (xs : List JsonValue) (rest : List Char),
      (stringifyElems (x :: xs)).length + 1 < fuel →
      parseJElems fuel (stringifyElems (x :: xs) ++ ']' :: rest)
        = some (x :: xs, ']' :: rest)) ∧
    (∀ (k : String) (v : JsonValue) (fs : List (String × JsonValue)) (rest : List Char),
      (stringifyFields ((k, v) :: fs)).length + 1 < fuel →
      parseJFields fuel (stringifyFields ((k, v) :: fs) ++ '\x7d' :: rest)
        = some ((k, v) :: fs, '\x7d' :: rest)) := by
  induction fuel with
  | zero => refine ⟨?_, ?_, ?_⟩ <;> intros <;> omega
  | succ f ih =>
    obtain ⟨ihv, ihe, ihf⟩ := ih
    refine ⟨?_, ?_, ?_⟩
    · intro v rest hlen hrest
      cases v with
      | null => rfl
      | bool b => cases b <;> rfl
      | num n => exact parseJValue_intDec n f rest hrest
      | str s =>
        rw [show (JsonValue.str s).stringifyChars
            = ('"' :: s.toList.flatMap escapeChar) ++ ['"'] from rfl]
        simp only [List.cons_append, List.append_assoc, List.singleton_append, List.nil_append]
        calc parseJValue (f + 1) ('"' :: (s.toList.flatMap escapeChar ++ '"' :: rest))
            = (parseJStringBody ((s.toList.flatMap escapeChar ++ '"' :: rest).length + 1)
                (s.toList.flatMap escapeChar ++ '"' :: rest)).map
                (fun r => (JsonValue.str r.1.asString, r.2)) := rfl
          _ = some (.str s, rest) := by
              rw [parseJStringBody_escape s.toList rest _
                (by simp only [List.length_append, List.length_cons]; omega)]
              rfl
      | arr xs =>
        cases xs with
        | nil => rfl
        | cons x xs =>
          rw [show (JsonValue.arr (x :: xs)).stringifyChars
              = ('[' :: stringifyElems (x :: xs)) ++ [']'] from rfl] at hlen ⊢
          simp only [List.cons_append, List.append_assoc, List.singleton_append,
            List.nil_append] at hlen ⊢
          simp only [List.length_append, List.length_cons] at hlen
          obtain ⟨c, tl, hE, hws, hnr⟩ := stringifyElems_shape x xs (']' :: rest)
          rw [hE]
          calc parseJValue (f + 1) ('[' :: c :: tl)
              = (match List.dropWhile jsonWS (c :: tl) with
                | ']' :: rest' => some (JsonValue.arr [], rest')
                | rest' => (parseJElems f rest').bind fun r =>
                    match List.dropWhile jsonWS r.2 with
                    | ']' :: rest'' => some (JsonValue.arr r.1, rest'')
                    | _ => none) := rfl
            _ = some (.arr (x :: xs), rest) := by
                rw [List.dropWhile_cons]
                simp only [hws, Bool.false_eq_true, if_false]
                split
                · rename_i rest' heq
                  injection heq with h1 h2
                  exact absurd h1 hnr
                · rw [← hE, ihe x xs rest (by omega)]
                  rfl
      | obj fs =>
        cases fs with
        | nil => rfl
        | cons g fs =>
          obtain ⟨k, v⟩ := g
          rw [show (JsonValue.obj ((k, v) :: fs)).stringifyChars
              = ('\x7b' :: stringifyFields ((k, v) :: fs)) ++ ['\x7d'] from rfl] at hlen ⊢
          simp only [List.cons_append, List.append_assoc, List.singleton_append,
            List.nil_append] at hlen ⊢
          simp only [List.length_append, List.length_cons] at hlen
          obtain ⟨tl, hF⟩ := stringifyFields_shape k v fs ('\x7d' :: rest)
          rw [hF]
          calc parseJValue (f + 1) ('\x7b' :: '"' :: tl)
              = (parseJFields f ('"' :: tl)).bind fun r =>
                  match List.dropWhile jsonWS r.2 with
                  | '\x7d' :: rest'' => some (JsonValue.obj r.1, rest'')
                  | _ => none := rfl
            _ = some (.obj ((k, v) :: fs), rest) := by
                rw [← hF, ihf k v fs rest (by omega)]
                rfl
    · intro x xs rest hlen
      cases xs with
      | nil =>
        rw [show stringifyElems [x] = x.stringifyChars from rfl] at hlen ⊢
        rw [parseJElems_cons_general f x (']' :: rest)
          (ihv x (']' :: rest) (by omega) (by exact rfl))]
        rfl
      | cons y ys =>
        rw [stringifyElems_cons_ne] at hlen ⊢
        simp only [List.length_append, List.length_cons] at hlen
        simp only [List.cons_append, List.append_assoc, List.singleton_append, List.nil_append]
        rw [show x.stringifyChars ++ ',' :: (stringifyElems (y :: ys) ++ ']' :: rest)
            = x.stringifyChars ++ (',' :: (stringifyElems (y :: ys) ++ ']' :: rest)) from rfl,
          parseJElems_cons_general f x (',' :: (stringifyElems (y :: ys) ++ ']' :: rest))
          (ihv x _ (by omega) (by exact rfl))]
        rw [show (',' :: (stringifyElems (y :: ys) ++ ']' :: rest)).dropWhile jsonWS
            = ',' :: (stringifyElems (y :: ys) ++ ']' :: rest) from rfl]
        simp only []
        rw [ihe y ys rest (by omega)]
        rfl
    · intro k v fs rest hlen
      cases fs with
      | nil =>
        rw [show stringifyFields [(k, v)]
            = quoteString k ++ ':' :: v.stringifyChars from rfl] at hlen ⊢
        simp only [List.length_append, List.length_cons] at hlen
        rw [parseJFields_cons_general f k v ('\x7d' :: rest)
          (ihv v ('\x7d' :: rest) (by omega) (by exact rfl))]
        rfl
      | cons g fs' =>
        obtain ⟨k2, v2⟩ := g
        rw [stringifyFields_cons_ne] at hlen ⊢
        simp only [List.length_append, List.length_cons] at hlen
        simp only [List.cons_append, List.append_assoc, List.singleton_append, List.nil_append]
        rw [show quoteString k ++ ':' :: (v.stringifyChars
              ++ ',' :: (stringifyFields ((k2, v2) :: fs') ++ '\x7d' :: rest))
            = (quoteString k ++ ':' :: v.stringifyChars)
              ++ (',' :: (stringifyFields ((k2, v2) :: fs') ++ '\x7d' :: rest)) from by
              simp [List.append_assoc],
          parseJFields_cons_general f k v
            (',' :: (stringifyFields ((k2, v2) :: fs') ++ '\x7d' :: rest))
            (ihv v _ (by omega) (by exact rfl))]
        rw [show (',' :: (stringifyFields ((k2, v2) :: fs') ++ '\x7d' :: rest)).dropWhile jsonWS
            = ',' :: (stringifyFields ((k2, v2) :: fs') ++ '\x7d' :: rest) from rfl]
        simp only []
        rw [ihf k2 v2 fs' rest (by omega)]
        rfl

/-- `JSON.parse` inverts `JSON.stringify` on every JSON tree value. -/
theorem JsonValue.parse_stringify (v : JsonValue) : JsonValue.parse v.stringify = .ok v := by
  rw [JsonValue.parse, JsonValue.stringify, toList_asString]
  have hdw : (v.stringifyChars).dropWhile jsonWS = v.stringifyChars := by
    have := dropWhile_stringify_append v []
    rwa [List.append_nil] at this
  rw [hdw]
  have hpv := (parseJ_stringify ((v.stringifyChars).length + 1)).1 v []
    (by omega) trivial
  rw [List.append_nil] at hpv
  rw [hpv]
  rfl

/-! ## Lemmas: the collection wrapper's update loop -/

theorem set_get_self {α : Type} (l : List α) (i : Nat) (h : i < l.length) :
    l.set i (l.get ⟨i, h⟩) = l := by
  rw [List.set_eq_take_append_cons_drop, if_pos h,
    show l.get ⟨i, h⟩ = l[i] from rfl, ← List.drop_eq_getElem_cons h, List.take_append_drop]

/-- `items[items.findIndex(p)]` with a fallback for `-1` is `find?` with the
same fallback. -/
theorem getD_findIdx?_find? {α : Type} (p : α → Bool) (d : α) :
    ∀ l : List α, (match l.findIdx? p with
      | some j => l.getD j d
      | none => d) = (l.find? p).getD d := by
  intro l
  induction l with
  | nil => rfl
  | cons a l ih =>
    by_cases h : p a
    · simp [List.findIdx?_cons, List.find?_cons, h]
    · have hb : p a = false := by simpa using h
      rw [show (a :: l).findIdx? p = List.findIdx? p (a :: l) 0 from rfl, List.findIdx?_cons,
        if_neg (by simp [h]), List.findIdx?_succ]
      simp only [List.find?_cons, hb]
      cases hl : List.findIdx? p l 0 with
      | none =>
        rw [show l.findIdx? p = List.findIdx? p l 0 from rfl, hl] at ih
        simpa using ih
      | some j =>
        rw [show l.findIdx? p = List.findIdx? p l 0 from rfl, hl] at ih
        simpa [List.getD_cons_succ] using ih

/-- The in-place `forEach` update loop computes the pointwise replacement of
each stored element by the first comparator-equal input element. -/
theorem updateItemsGo_eq {α : Type} (cmp : α → α → Int) (input : List α) :
    ∀ (n : Nat) (arr : List α) (i : Nat), arr.length - i ≤ n →
      JsonValuesStorageWrapper.updateItemsGo cmp input arr i
        = arr.take i ++ (arr.drop i).map fun item =>
            ((input.find? fun x => cmp x item == 0).getD item) := by
  intro n
  induction n with
  | zero =>
    intro arr i hi
    rw [JsonValuesStorageWrapper.updateItemsGo, dif_neg (by omega)]
    rw [List.take_of_length_le (by omega), List.drop_eq_nil_of_le (by omega)]
    simp
  | succ n ih =>
    intro arr i hi
    rw [JsonValuesStorageWrapper.updateItemsGo]
    by_cases h : i < arr.length
    · rw [dif_pos h]
      have harr' : (match input.findIdx? fun x => cmp x (arr.get ⟨i, h⟩) == 0 with
          | some j => arr.set i (input.getD j (arr.get ⟨i, h⟩))
          | none => arr)
          = arr.set i ((input.find? fun x => cmp x (arr.get ⟨i, h⟩) == 0).getD
              (arr.get ⟨i, h⟩)) := by
        rw [← getD_findIdx?_find? (fun x => cmp x (arr.get ⟨i, h⟩) == 0) (arr.get ⟨i, h⟩) input]
        cases hf : input.findIdx? fun x => cmp x (arr.get ⟨i, h⟩) == 0 with
        | none => exact (set_get_self arr i h).symm
        | some j => rfl
      simp only []
      rw [harr']
      rw [ih _ (i + 1) (by simp only [List.length_set]; omega)]
      rw [List.set_eq_take_append_cons_drop, if_pos h]
      rw [List.take_append_eq_append_take, List.drop_append_eq_append_drop]
      have ht : (arr.take i).length = i := by
        rw [List.length_take]
        omega
      rw [ht]
      rw [List.take_take, show min (i + 1) i = i from by omega,
        show i + 1 - i = 1 from by omega]
      rw [List.drop_eq_nil_of_le (show (arr.take i).length ≤ i + 1 from by rw [ht]; omega),
        List.nil_append,
        show ∀ (b : α) (t : List α), (b :: t).take 1 = [b] from fun b t => rfl,
        show ∀ (b : α) (t : List α), (b :: t).drop 1 = t from fun b t => rfl]
      rw [List.drop_eq_getElem_cons h, List.map_cons]
      simp [List.append_assoc]
    · rw [dif_neg h]
      rw [List.take_of_length_le (by omega), List.drop_eq_nil_of_le (by omega)]
      simp

/-- A non-empty byte array never encodes to the empty string. -/
theorem fromByteArray_ne_empty : ∀ (b : Nat) (bs : List Nat), fromByteArray (b :: bs) ≠ ""
  | b, [] => by simp [fromByteArray, encodeChunks, List.asString, String.ext_iff]
  | b, [c] => by simp [fromByteArray, encodeChunks, List.asString, String.ext_iff]
  | b, c :: d :: rest => by simp [fromByteArray, encodeChunks, List.asString, String.ext_iff]

/-! ## The claims -/

/-- C1 (counterexample): the claim says the boolean wrapper's `find()`
returns `false` (not absent) when no stored value exists and that
`retrieve()` on a missing boolean key never raises.  On the code, `find()`
on a missing key returns absent, not `false`, and `retrieve()` raises the
NotFound error naming the key. -/
theorem c1_boolean_quirk_counterexample :
    BooleanValueStorageWrapper.find "flag" none
      = ⟨.ok none, [.find "flag"]⟩ ∧
    BooleanValueStorageWrapper.find "flag" none
      ≠ ⟨.ok (some false), [.find "flag"]⟩ ∧
    BooleanValueStorageWrapper.retrieve "flag" none
      = ⟨.error (noValueMsg "flag"), [.find "flag"]⟩ :=
  ⟨rfl, by decide, rfl⟩

/-- C1 (amended): the boolean wrapper's `find()` returns absent when no
stored value exists, exactly like every other wrapper; a stored string
decodes to `true` iff it equals `"1"`; and `retrieve()` on a missing
boolean key raises the NotFound error naming the key, like other types. -/
theorem c1_boolean_absent_semantics (key s : String) :
    BooleanValueStorageWrapper.find key none = ⟨.ok none, [.find key]⟩ ∧
    BooleanValueStorageWrapper.find key (some s)
      = ⟨.ok (some (s == "1")), [.find key]⟩ ∧
    BooleanValueStorageWrapper.retrieve key none
      = ⟨.error (noValueMsg key), [.find key]⟩ ∧
    BooleanValueStorageWrapper.retrieve key (some s)
      = ⟨.ok (s == "1"), [.find key]⟩ :=
  ⟨rfl, rfl, rfl, rfl⟩

/-- C2 (counterexample): the round-trip claim fails for the binary wrapper
at the empty byte array: `save` encodes it as the empty string, and
`find()` treats an empty stored string as falsy, reporting the value as
absent rather than returning an empty array. -/
theorem c2_roundtrip_counterexample :
    fromByteArray [] = "" ∧
    Uint8ArrayValueStorageWrapper.save "bin" [] = ⟨.ok (), [.save "bin" ""]⟩ ∧
    Uint8ArrayValueStorageWrapper.find "bin" (some (fromByteArray []))
      = ⟨.ok none, [.find "bin"]⟩ ∧
    (Except.ok none : Except String (Option (List Nat))) ≠ .ok (some []) :=
  ⟨rfl, rfl, rfl, by simp⟩

/-- C2 (amended): `save(v)` followed by `find()` (with the backend returning
the string last saved) returns a value decode-equal to `v` for the string,
boolean, number, date, JSON and binary wrappers — except where decode
intentionally normalizes (boolean decodes any non-`"1"` string to `false`,
which still round-trips saved booleans) and except the binary wrapper's
empty byte array, which encodes to the empty string and is read back as
absent.  Numbers are covered over the integral fragment of the model
(together with `NaN` and the infinities), dates over the valid range of
epoch milliseconds. -/
theorem c2_save_find_roundtrip (key s : String) (b : Bool) (n t : Int)
    (bytes : List Nat) (v : JsonValue)
    (hn : n.natAbs < 10 ^ 21) (ht : t.natAbs ≤ 8640000000000000)
    (hbytes : ∀ x ∈ bytes, x < 256) (hne : bytes ≠ []) :
    StringValueStorageWrapper.save key s = ⟨.ok (), [.save key s]⟩ ∧
    StringValueStorageWrapper.find key (some s) = ⟨.ok (some s), [.find key]⟩ ∧
    BooleanValueStorageWrapper.save key b
      = ⟨.ok (), [.save key (if b then "1" else "0")]⟩ ∧
    BooleanValueStorageWrapper.find key (some (if b then "1" else "0"))
      = ⟨.ok (some b), [.find key]⟩ ∧
    NumberValueStorageWrapper.save key (.num (n : ℚ))
      = ⟨.ok (), [.save key (jsNumToString (.num (n : ℚ)))]⟩ ∧
    NumberValueStorageWrapper.find key (some (jsNumToString (.num (n : ℚ))))
      = ⟨.ok (some (.num (n : ℚ))), [.find key]⟩ ∧
    NumberValueStorageWrapper.find key (some (jsNumToString .nan))
      = ⟨.ok (some .nan), [.find key]⟩ ∧
    NumberValueStorageWrapper.find key (some (jsNumToString .inf))
      = ⟨.ok (some .inf), [.find key]⟩ ∧
    NumberValueStorageWrapper.find key (some (jsNumToString .negInf))
      = ⟨.ok (some .negInf), [.find key]⟩ ∧
    DateValueStorageWrapper.save key ⟨.num (t : ℚ)⟩
      = ⟨.ok (), [.save key (jsNumToString (.num (t : ℚ)))]⟩ ∧
    DateValueStorageWrapper.find key (some (jsNumToString (.num (t : ℚ))))
      = ⟨.ok (some ⟨.num (t : ℚ)⟩), [.find key]⟩ ∧
    JsonValueStorageWrapper.save key v = ⟨.ok (), [.save key v.stringify]⟩ ∧
    JsonValueStorageWrapper.find key (some v.stringify)
      = ⟨.ok (some v), [.find key]⟩ ∧
    Uint8ArrayValueStorageWrapper.save key bytes
      = ⟨.ok (), [.save key (fromByteArray bytes)]⟩ ∧
    Uint8ArrayValueStorageWrapper.find key (some (fromByteArray bytes))
      = ⟨.ok (some bytes), [.find key]⟩ := by
  have hint : ∀ m : Int, jsNumToString (.num (m : ℚ)) = intDec m := by
    intro m
    rw [jsNumToString]
    simp [Rat.den_intCast, Rat.num_intCast]
  refine ⟨rfl, rfl, rfl, ?_, rfl, ?_, ?_, ?_, ?_, rfl, ?_, rfl, ?_, rfl, ?_⟩
  · cases b <;> rfl
  · rw [hint n, NumberValueStorageWrapper.find, jsToNumber_intDec]
  · rfl
  · exact congrArg (fun x => MethodRun.mk (.ok (some x)) [.find key]) (by decide)
  · exact congrArg (fun x => MethodRun.mk (.ok (some x)) [.find key]) (by decide)
  · rw [hint t, DateValueStorageWrapper.find, jsToNumber_intDec]
    rw [if_neg (by simp)]
    have htc : timeClip (.num (t : ℚ)) = .num (t : ℚ) := by
      rw [timeClip, if_pos]
      · rw [ratTrunc, Rat.num_intCast, Rat.den_intCast]
        norm_num [Int.tdiv_one]
      · rw [show |(t : ℚ)| = ((|t| : Int) : ℚ) from by push_cast; rfl]
        have : |t| ≤ (8640000000000000 : Int) := by
          rw [Int.abs_eq_natAbs]
          exact_mod_cast ht
        exact_mod_cast this
    rw [mkDate, htc]
  · rw [JsonValueStorageWrapper.find, JsonValue.parse_stringify]
  · obtain ⟨x, xs, rfl⟩ : ∃ x xs, bytes = x :: xs := by
      cases bytes with
      | nil => exact absurd rfl hne
      | cons x xs => exact ⟨x, xs, rfl⟩
    rw [Uint8ArrayValueStorageWrapper.find, if_neg (fromByteArray_ne_empty x xs),
      toByteArray_fromByteArray _ hbytes]

/-- C2 (witness): the round-trip theorem applied at concrete inputs. -/
theorem c2_save_find_roundtrip_witness :
    ((42 : Int).natAbs < 10 ^ 21 ∧ (1710763200000 : Int).natAbs ≤ 8640000000000000 ∧
      (∀ x ∈ ([1, 2, 3, 4, 5] : List Nat), x < 256) ∧ ([1, 2, 3, 4, 5] : List Nat) ≠ []) ∧
    NumberValueStorageWrapper.find "counter" (some (jsNumToString (.num ((42 : Int) : ℚ))))
      = ⟨.ok (some (.num ((42 : Int) : ℚ))), [.find "counter"]⟩ :=
  ⟨⟨by decide, by decide, by decide, by decide⟩,
    (c2_save_find_roundtrip "counter" "v" true 42 1710763200000 [1, 2, 3, 4, 5]
      (.obj [("id", .num 1)]) (by decide) (by decide) (by decide)
      (by decide)).2.2.2.2.2.1⟩

/-- C3 (counterexample): the claim says `retrieve()` raises NotFound only
when the backend holds no value, and otherwise returns what `find()`
returns.  With the backend holding `"0"` at the number wrapper's key,
`find()` reports the value `0` as present, yet `retrieve()` raises the
NotFound error, because its presence check tests falsiness. -/
theorem c3_retrieve_counterexample :
    NumberValueStorageWrapper.find "counter" (some "0")
      = ⟨.ok (some (.num 0)), [.find "counter"]⟩ ∧
    NumberValueStorageWrapper.retrieve "counter" (some "0")
      = ⟨.error (noValueMsg "counter"), [.find "counter"]⟩ :=
  ⟨by decide, by decide⟩

/-- C3 (amended): `retrieve()` raises the NotFound error naming the key
whenever the backend holds no value, for every wrapper.  When a value is
present, the wrappers whose check is `value === undefined` (boolean, date,
JSON, and the binary wrapper on a successfully decoded value) return
exactly the decoded value `find()` would return; the string and number
wrappers test falsiness instead, so they return `find()`'s value only when
it is truthy and also raise NotFound on a falsy decoded value (the empty
string; the number `0` or `NaN`). -/
theorem c3_retrieve_notfound_contract (key s : String) :
    StringValueStorageWrapper.retrieve key none
      = ⟨.error (noValueMsg key), [.find key]⟩ ∧
    NumberValueStorageWrapper.retrieve key none
      = ⟨.error (noValueMsg key), [.find key]⟩ ∧
    BooleanValueStorageWrapper.retrieve key none
      = ⟨.error (noValueMsg key), [.find key]⟩ ∧
    DateValueStorageWrapper.retrieve key none
      = ⟨.error (noValueMsg key), [.find key]⟩ ∧
    JsonValueStorageWrapper.retrieve key none
      = ⟨.error (noValueMsg key), [.find key]⟩ ∧
    Uint8ArrayValueStorageWrapper.retrieve key none
      = ⟨.error (noValueMsg key), [.find key]⟩ ∧
    BooleanValueStorageWrapper.retrieve key (some s)
      = ⟨.ok (s == "1"), [.find key]⟩ ∧
    (jsToNumber s ≠ .nan →
      DateValueStorageWrapper.retrieve key (some s)
        = ⟨.ok (mkDate (jsToNumber s)), [.find key]⟩) ∧
    (∀ v, JsonValue.parse s = .ok v →
      JsonValueStorageWrapper.retrieve key (some s) = ⟨.ok v, [.find key]⟩) ∧
    (∀ bs, s ≠ "" → toByteArray s = .ok bs →
      Uint8ArrayValueStorageWrapper.retrieve key (some s) = ⟨.ok bs, [.find key]⟩) ∧
    (s ≠ "" → StringValueStorageWrapper.retrieve key (some s) = ⟨.ok s, [.find key]⟩) ∧
    StringValueStorageWrapper.retrieve key (some "")
      = ⟨.error (noValueMsg key), [.find key]⟩ ∧
    ((jsToNumber s).falsy = false →
      NumberValueStorageWrapper.retrieve key (some s)
        = ⟨.ok (jsToNumber s), [.find key]⟩) ∧
    ((jsToNumber s).falsy = true →
      NumberValueStorageWrapper.retrieve key (some s)
        = ⟨.error (noValueMsg key), [.find key]⟩) := by
  refine ⟨rfl, rfl, rfl, rfl, rfl, rfl, rfl, ?_, ?_, ?_, ?_, rfl, ?_, ?_⟩
  · intro h
    simp [DateValueStorageWrapper.retrieve, h]
  · intro v hv
    simp [JsonValueStorageWrapper.retrieve, hv]
  · intro bs hs hbs
    simp [Uint8ArrayValueStorageWrapper.retrieve, hs, hbs]
  · intro hs
    simp [StringValueStorageWrapper.retrieve, hs]
  · intro h
    simp [NumberValueStorageWrapper.retrieve, h]
  · intro h
    simp [NumberValueStorageWrapper.retrieve, h]

/-- C3 (witness): the amended contract applied at a concrete present,
truthy value. -/
theorem c3_retrieve_notfound_contract_witness :
    (jsToNumber "42").falsy = false ∧
    NumberValueStorageWrapper.retrieve "counter" (some "42")
      = ⟨.ok (jsToNumber "42"), [.find "counter"]⟩ :=
  ⟨by decide,
    (c3_retrieve_notfound_contract "counter" "42").2.2.2.2.2.2.2.2.2.2.2.2.1 (by decide)⟩

/-- C4: `updateItem(item)` with a stored element comparing equal replaces
the first such element in place (the match index is the first index whose
element compares equal; the saved array is the stored one with only that
position overwritten); with no match it raises the ItemNotFound error and
issues no save. -/
theorem c4_updateItem_semantics {α : Type} (cmp : α → α → Int) (st : Option (List α))
    (item : α) :
    (∀ idx, ((st.getD []).findIdx? fun i => cmp i item == 0) = some idx →
      (∃ h : idx < (st.getD []).length,
        (cmp ((st.getD []).get ⟨idx, h⟩) item == 0) ∧
        ∀ j (hj : j < idx), ¬(cmp ((st.getD []).get ⟨j, Nat.lt_trans hj h⟩) item == 0)) ∧
      JsonValuesStorageWrapper.updateItem cmp st item
        = ⟨.ok (), [(st.getD []).set idx item]⟩) ∧
    (((st.getD []).findIdx? fun i => cmp i item == 0) = none →
      JsonValuesStorageWrapper.updateItem cmp st item
        = ⟨.error itemNotFoundMsg, []⟩) := by
  constructor
  · intro idx hidx
    refine ⟨List.findIdx?_eq_some_iff_getElem.mp hidx, ?_⟩
    simp [JsonValuesStorageWrapper.updateItem, hidx]
  · intro hnone
    simp [JsonValuesStorageWrapper.updateItem, hnone]

/-- C4 (witness): the update semantics applied to a concrete store. -/
theorem c4_updateItem_semantics_witness :
    ((([1, 2, 3] : List Int).findIdx? fun i => (i - 2) == 0) = some 1) ∧
    JsonValuesStorageWrapper.updateItem (fun a b => a - b) (some [1, 2, 3]) 2
      = ⟨.ok (), [([1, 2, 3] : List Int).set 1 2]⟩ ∧
    ((([1, 2, 3] : List Int).findIdx? fun i => (i - 99) == 0) = none) ∧
    JsonValuesStorageWrapper.updateItem (fun a b => a - b) (some [1, 2, 3]) 99
      = ⟨.error itemNotFoundMsg, []⟩ :=
  ⟨by decide,
    ((c4_updateItem_semantics (fun a b => a - b) (some [1, 2, 3]) 2).1 1 (by decide)).2,
    by decide,
    (c4_updateItem_semantics (fun a b => a - b) (some [1, 2, 3]) 99).2 (by decide)⟩

/-- C5: for the number wrapper, a stored string whose decode is falsy (`0`
or `NaN`) is reported present by `find()` yet makes `retrieve()` raise the
NotFound error; for the string wrapper, the stored empty string likewise is
present for `find()` while `retrieve()` raises. -/
theorem c5_falsy_decode_retrieve (key s : String) :
    ((jsToNumber s).falsy = true →
      NumberValueStorageWrapper.find key (some s)
        = ⟨.ok (some (jsToNumber s)), [.find key]⟩ ∧
      NumberValueStorageWrapper.retrieve key (some s)
        = ⟨.error (noValueMsg key), [.find key]⟩) ∧
    (StringValueStorageWrapper.find key (some "") = ⟨.ok (some ""), [.find key]⟩ ∧
      StringValueStorageWrapper.retrieve key (some "")
        = ⟨.error (noValueMsg key), [.find key]⟩) := by
  refine ⟨fun h => ⟨rfl, ?_⟩, rfl, rfl⟩
  simp [NumberValueStorageWrapper.retrieve, h]

/-- C5 (witness): stored `"0"` (decode `0`) and stored `"abc"` (decode
`NaN`) both raise on `retrieve()` though `find()` reports them present. -/
theorem c5_falsy_decode_retrieve_witness :
    ((jsToNumber "0").falsy = true ∧
      NumberValueStorageWrapper.retrieve "counter" (some "0")
        = ⟨.error (noValueMsg "counter"), [.find "counter"]⟩) ∧
    ((jsToNumber "abc").falsy = true ∧
      NumberValueStorageWrapper.retrieve "counter" (some "abc")
        = ⟨.error (noValueMsg "counter"), [.find "counter"]⟩) :=
  ⟨⟨by decide, ((c5_falsy_decode_retrieve "counter" "0").1 (by decide)).2⟩,
    ⟨by decide, ((c5_falsy_decode_retrieve "counter" "abc").1 (by decide)).2⟩⟩

/-- C6 (counterexample): the claim says the date wrapper's `find()` raises
whenever the stored string does not parse to a finite number.  The stored
string `"Infinity"` parses to a non-finite number, yet `find()` does not
raise: the code only checks `isNaN`, so it returns an Invalid Date (time
value `NaN`). -/
theorem c6_date_find_counterexample :
    jsToNumber "Infinity" = .inf ∧
    DateValueStorageWrapper.find "ts" (some "Infinity")
      = ⟨.ok (some ⟨.nan⟩), [.find "ts"]⟩ :=
  ⟨by decide, by decide⟩

/-- C6 (amended): the date wrapper's `find()` raises the decode error
naming the key exactly when the numeric parse of the stored string is
`NaN`; for any non-`NaN` parse (including the infinities) it returns the
`Date` built from that value, which for a finite in-range parse is the
truncated epoch-millisecond value. -/
theorem c6_date_find_decode (key s : String) :
    (jsToNumber s = .nan →
      DateValueStorageWrapper.find key (some s)
        = ⟨.error (invalidTimestampMsg key), [.find key]⟩) ∧
    (jsToNumber s ≠ .nan →
      DateValueStorageWrapper.find key (some s)
        = ⟨.ok (some (mkDate (jsToNumber s))), [.find key]⟩) ∧
    (∀ q : ℚ, jsToNumber s = .num q → |q| ≤ 8640000000000000 →
      DateValueStorageWrapper.find key (some s)
        = ⟨.ok (some ⟨.num (ratTrunc q : ℚ)⟩), [.find key]⟩) := by
  refine ⟨fun h => ?_, fun h => ?_, fun q hq hb => ?_⟩
  · simp [DateValueStorageWrapper.find, h]
  · simp [DateValueStorageWrapper.find, h]
  · simp [DateValueStorageWrapper.find, hq, mkDate, timeClip, hb]

/-- C6 (witness): the amended decode behavior at a stored valid timestamp
and at a stored non-numeric string. -/
theorem c6_date_find_decode_witness :
    (jsToNumber "1710763200000" = .num 1710763200000 ∧
      |(1710763200000 : ℚ)| ≤ 8640000000000000 ∧
      DateValueStorageWrapper.find "ts" (some "1710763200000")
        = ⟨.ok (some ⟨.num (ratTrunc 1710763200000 : ℚ)⟩), [.find "ts"]⟩) ∧
    (jsToNumber "not-a-number" = .nan ∧
      DateValueStorageWrapper.find "ts" (some "not-a-number")
        = ⟨.error (invalidTimestampMsg "ts"), [.find "ts"]⟩) :=
  ⟨⟨by decide, by decide,
    (c6_date_find_decode "ts" "1710763200000").2.2 1710763200000 (by decide) (by decide)⟩,
    ⟨by decide, (c6_date_find_decode "ts" "not-a-number").1 (by decide)⟩⟩

/-- C7: the number wrapper's decode never raises: `find()` on any stored
string returns the numeric parse of that string (a parse failure yields
`NaN`, as for the stored `"not-a-number"`), and `find()` is successful on
every backend state. -/
theorem c7_number_decode_never_raises (key s : String) (st : Option String) :
    NumberValueStorageWrapper.find key (some s)
      = ⟨.ok (some (jsToNumber s)), [.find key]⟩ ∧
    (NumberValueStorageWrapper.find key st).result.isOk = true ∧
    jsToNumber "not-a-number" = .nan :=
  ⟨rfl, by cases st <;> rfl, by decide⟩

/-- C8: `updateItems(items)` saves exactly one array: the stored array with
each element replaced by the first input element comparing equal to it
(elements with no match kept as they are); input elements matching nothing
are never appended, so the saved array has the stored array's length, with
positions preserved pointwise. -/
theorem c8_updateItems_semantics {α : Type} (cmp : α → α → Int) (st : Option (List α))
    (input : List α) :
    JsonValuesStorageWrapper.updateItems cmp st input
      = ⟨.ok (), [(st.getD []).map fun item =>
          ((input.find? fun x => cmp x item == 0).getD item)]⟩ ∧
    ((st.getD []).map fun item =>
        ((input.find? fun x => cmp x item == 0).getD item)).length
      = (st.getD []).length := by
  constructor
  · rw [JsonValuesStorageWrapper.updateItems,
      updateItemsGo_eq cmp input (st.getD []).length (st.getD []) 0 (by omega)]
    simp
  · simp

/-- C9: `removeItem(item)` with no stored element comparing equal does not
raise and still issues a save writing the unchanged array back (a redundant
write); with a match it removes exactly the first matching element. -/
theorem c9_removeItem_semantics {α : Type} (cmp : α → α → Int) (st : Option (List α))
    (item : α) :
    (((st.getD []).findIdx? fun i => cmp i item == 0) = none →
      JsonValuesStorageWrapper.removeItem cmp st item = ⟨.ok (), [st.getD []]⟩) ∧
    (∀ idx, ((st.getD []).findIdx? fun i => cmp i item == 0) = some idx →
      (∃ h : idx < (st.getD []).length,
        (cmp ((st.getD []).get ⟨idx, h⟩) item == 0) ∧
        ∀ j (hj : j < idx), ¬(cmp ((st.getD []).get ⟨j, Nat.lt_trans hj h⟩) item == 0)) ∧
      JsonValuesStorageWrapper.removeItem cmp st item
        = ⟨.ok (), [(st.getD []).eraseIdx idx]⟩) := by
  constructor
  · intro h
    simp [JsonValuesStorageWrapper.removeItem, h]
  · intro idx hidx
    refine ⟨List.findIdx?_eq_some_iff_getElem.mp hidx, ?_⟩
    simp [JsonValuesStorageWrapper.removeItem, hidx]

/-- C9 (witness): removing an absent item from `[1, 2, 3]` still saves the
unchanged array; removing `2` saves `[1, 3]`. -/
theorem c9_removeItem_semantics_witness :
    ((([1, 2, 3] : List Int).findIdx? fun i => (i - 99) == 0) = none) ∧
    JsonValuesStorageWrapper.removeItem (fun a b => a - b) (some [1, 2, 3]) 99
      = ⟨.ok (), [([1, 2, 3] : List Int)]⟩ ∧
    JsonValuesStorageWrapper.removeItem (fun a b => a - b) (some [1, 2, 3]) 2
      = ⟨.ok (), [([1, 2, 3] : List Int).eraseIdx 1]⟩ :=
  ⟨by decide,
    (c9_removeItem_semantics (fun a b => a - b) (some [1, 2, 3]) 99).1 (by decide),
    ((c9_removeItem_semantics (fun a b => a - b) (some [1, 2, 3]) 2).2 1 (by decide)).2⟩

/-- C10: `find()` and `retrieve()` of every wrapper issue exactly one
backend read and no write or removal, on every backend state; the
collection wrapper's `sortItems()` and `getItemsByFilter()` never call
`save`, returning the sorted (resp. filtered) copy of the freshly read
array while leaving the stored value untouched. -/
theorem c10_read_only_operations (key : String) (st : Option String) {α : Type}
    (cmp : α → α → Int) (stc : Option (List α)) (pred : α → Bool) :
    (StringValueStorageWrapper.find key st).ops = [.find key] ∧
    (StringValueStorageWrapper.retrieve key st).ops = [.find key] ∧
    (NumberValueStorageWrapper.find key st).ops = [.find key] ∧
    (NumberValueStorageWrapper.retrieve key st).ops = [.find key] ∧
    (BooleanValueStorageWrapper.find key st).ops = [.find key] ∧
    (BooleanValueStorageWrapper.retrieve key st).ops = [.find key] ∧
    (DateValueStorageWrapper.find key st).ops = [.find key] ∧
    (DateValueStorageWrapper.retrieve key st).ops = [.find key] ∧
    (JsonValueStorageWrapper.find key st).ops = [.find key] ∧
    (JsonValueStorageWrapper.retrieve key st).ops = [.find key] ∧
    (Uint8ArrayValueStorageWrapper.find key st).ops = [.find key] ∧
    (Uint8ArrayValueStorageWrapper.retrieve key st).ops = [.find key] ∧
    (JsonValuesStorageWrapper.sortItems cmp stc).saved = [] ∧
    (JsonValuesStorageWrapper.getItemsByFilter stc pred).saved = [] ∧
    (JsonValuesStorageWrapper.sortItems cmp stc).result
      = .ok ((stc.getD []).mergeSort fun a b => cmp a b ≤ 0) ∧
    (JsonValuesStorageWrapper.getItemsByFilter stc pred).result
      = .ok ((stc.getD []).filter pred) := by
  cases st with
  | none => exact ⟨rfl, rfl, rfl, rfl, rfl, rfl, rfl, rfl, rfl, rfl, rfl, rfl,
      rfl, rfl, rfl, rfl⟩
  | some s =>
    refine ⟨rfl, ?_, rfl, ?_, rfl, rfl, ?_, ?_, ?_, ?_, ?_, ?_, rfl, rfl, rfl, rfl⟩
    · rw [StringValueStorageWrapper.retrieve]
      split <;> rfl
    · rw [NumberValueStorageWrapper.retrieve]
      split <;> rfl
    · rw [DateValueStorageWrapper.find]
      split <;> rfl
    · rw [DateValueStorageWrapper.retrieve]
      split <;> rfl
    · cases hp : JsonValue.parse s with
      | ok v => simp [JsonValueStorageWrapper.find, hp]
      | error e => simp [JsonValueStorageWrapper.find, hp]
    · cases hp : JsonValue.parse s with
      | ok v => simp [JsonValueStorageWrapper.retrieve, hp]
      | error e => simp [JsonValueStorageWrapper.retrieve, hp]
    · rw [Uint8ArrayValueStorageWrapper.find]
      split
      · rfl
      · split <;> rfl
    · rw [Uint8ArrayValueStorageWrapper.retrieve]
      split
      · rfl
      · split <;> rfl
